import Mathlib

/-! # mdadm: linear address translation over a JBOD device

A shallow embedding of `src/mdadm.c` (`mdadm_mount`, `mdadm_unmount`, `op`,
`mdadm_read`, `mdadm_write`) and the properties of it that were checked.

Conventions of the embedding:

* `uint32_t` values are `Nat`, every 32-bit operation carries its `% 2^32`;
  `int` values are `Int`, C's truncating `/` and `%` are `Int.tdiv` and
  `Int.tmod`; the conversions between them are `u32` and `i32`.
* a byte pointer is the function `Nat → Byte` giving the byte at each
  non-negative distance from it (distances past the caller's length are the
  memory that follows the caller's buffer); a possibly-NULL pointer is an
  `Option` of it.
* the local array `temp_buf[256]` is only valid at indices `0 .. 255`; a
  `memcpy` that touches it outside that range has no defined behaviour and is
  reported as a `Fault`.
* the `while`/`for` loops are unrolled by a fuel counter; the entry points
  supply the requested length as fuel and the theorems show that it suffices.
* the global state (mount flag, device, cache) is passed explicitly and
  carries a chronological `trace` of every collaborator call and `memcpy`.
-/

namespace Mdadm

/-! ## Machine integers -/

/-- One byte (`uint8_t`). -/
abbrev Byte := Fin 256

/-- Memory reached through a `uint8_t *`: the byte at each distance from it. -/
abbrev Buf := Nat → Byte

/-- Conversion of an `int` to `uint32_t`. -/
def u32 (x : Int) : Nat := (x % 4294967296).toNat

/-- Conversion of a `uint32_t` to `int` (two's complement). -/
def i32 (n : Nat) : Int :=
  if n % 4294967296 < 2147483648 then ((n % 4294967296 : Nat) : Int)
  else ((n % 4294967296 : Nat) : Int) - 4294967296

/-- Subtraction of two `uint32_t`. -/
def usub32 (a b : Nat) : Nat := (a % 4294967296 + 4294967296 - b % 4294967296) % 4294967296

/-! ## Constants of `jbod.h` -/

/-- Modelled from the spec: `jbod.h` is not part of the sources; the spec
gives the disk capacity of the reference system as 65536 bytes. -/
def JBOD_DISK_SIZE : Nat := 65536

/-- Modelled from the spec: `jbod.h` is not part of the sources; the spec
gives the block size of the reference system as 256 bytes. -/
def JBOD_BLOCK_SIZE : Nat := 256

/-- Modelled from the spec: the command codes of `jbod.h`, which is not part
of the sources. The spec names the six directives (mount, unmount,
select-disk, select-block, read-block, write-block); they are numbered in
that order. -/
def JBOD_MOUNT : Nat := 0

/-- Modelled from the spec: see `JBOD_MOUNT`. -/
def JBOD_UNMOUNT : Nat := 1

/-- Modelled from the spec: see `JBOD_MOUNT`. -/
def JBOD_SEEK_TO_DISK : Nat := 2

/-- Modelled from the spec: see `JBOD_MOUNT`. -/
def JBOD_SEEK_TO_BLOCK : Nat := 3

/-- Modelled from the spec: see `JBOD_MOUNT`. -/
def JBOD_READ_BLOCK : Nat := 4

/-- Modelled from the spec: see `JBOD_MOUNT`. -/
def JBOD_WRITE_BLOCK : Nat := 5

/-! ## State -/

/-- Everything the translation layer does to its collaborators and to the
caller's memory, in the order it happens. -/
inductive Event where
  /-- The call `jbod_operation(w, _)`. -/
  | jbod (w : Nat)
  /-- The call `cache_lookup(disk, block, _)` and whether it hit. -/
  | lookup (disk block : Int) (hit : Bool)
  /-- The call `cache_insert(disk, block, _)`. -/
  | insert (disk block : Int)
  /-- A `memcpy` of `n` bytes between the caller's buffer at distance
  `callerOff` and `temp_buf` at index `tempOff`. -/
  | memcpy (callerOff tempOff n : Int)
  deriving DecidableEq, Repr

/-- Modelled from the spec: the Device collaborator (`jbod_operation` is
declared in `jbod.h`, not part of the sources). It holds the currently
selected disk and block, which persist until changed, and the contents of
every block; `mem d b i` is byte `i` of block `b` of disk `d`. -/
structure Jbod where
  disk : Nat
  block : Nat
  mem : Nat → Nat → Nat → Byte

/-- Modelled from the spec: the Cache collaborator (`cache.h` is not part of
the sources): an enabled flag and the inserted blocks keyed by
(disk, block), most recent first. -/
structure Cache where
  enabled : Bool
  entries : List (Int × Int × Buf)

/-- The global state: the flag `MOUNTED` of `mdadm.c`, the two collaborators
and the trace. -/
structure State where
  MOUNTED : Bool
  jbod : Jbod
  cache : Cache
  trace : List Event

/-- What can go wrong in the embedding itself. -/
inductive Fault where
  /-- A `memcpy` touched `temp_buf` outside indices `0 .. 255`. -/
  | tempBufRange
  /-- A `memcpy` through a NULL caller buffer. -/
  | nullBuffer
  /-- The fuel of a loop ran out. -/
  | outOfFuel
  deriving DecidableEq, Repr

/-- Record an event. -/
def State.log (s : State) (e : Event) : State :=
  { s with trace := s.trace ++ [e] }

/-! ## Collaborators -/

/-- Modelled from the spec: the Device collaborator's `jbod_operation`. The
command word is laid out as `op` builds it (disk in bits 28..31, block in
bits 20..27, command in bits 14..19). select-disk and select-block move the
cursor, read-block copies the selected block into the 256-byte buffer,
write-block stores the 256-byte buffer into the selected block; the mount and
unmount directives change nothing the translation layer can observe. -/
def jbod_operation (s : State) (w : Nat) (block : Option Buf) : State × Option Buf :=
  let cmd := (w >>> 14) % 64
  let disk := (w >>> 28) % 16
  let blk := (w >>> 20) % 256
  let s := s.log (.jbod w)
  if cmd = JBOD_SEEK_TO_DISK then
    ({ s with jbod := { s.jbod with disk := disk } }, block)
  else if cmd = JBOD_SEEK_TO_BLOCK then
    ({ s with jbod := { s.jbod with block := blk } }, block)
  else if cmd = JBOD_READ_BLOCK then
    match block with
    | some b =>
        (s, some (fun i => if i < 256 then s.jbod.mem s.jbod.disk s.jbod.block i else b i))
    | none => (s, none)
  else if cmd = JBOD_WRITE_BLOCK then
    match block with
    | some b =>
        ({ s with jbod := { s.jbod with mem := fun d k i =>
            if d = s.jbod.disk ∧ k = s.jbod.block ∧ i < 256 then b i else s.jbod.mem d k i } },
          block)
    | none => (s, none)
  else (s, block)

/-- Modelled from the spec: the Cache collaborator's enabled query. -/
def cache_enabled (s : State) : Bool := s.cache.enabled

/-- The most recently inserted block under a key, if any. -/
def Cache.find (c : Cache) (disk block : Int) : Option Buf :=
  (c.entries.find? (fun e => e.1 = disk ∧ e.2.1 = block)).map (fun e => e.2.2)

/-- Modelled from the spec: the Cache collaborator's `cache_lookup`: on a hit
it copies the 256 bytes of the cached block into the buffer and returns 1, on
a miss it returns -1 and leaves the buffer alone. -/
def cache_lookup (s : State) (disk block : Int) (buf : Buf) : Int × State × Buf :=
  match s.cache.find disk block with
  | some blk => (1, s.log (.lookup disk block true), fun i => if i < 256 then blk i else buf i)
  | none => (-1, s.log (.lookup disk block false), buf)

/-- Modelled from the spec: the Cache collaborator's `cache_insert`: it keeps
a copy of the 256 bytes of the buffer under (disk, block). -/
def cache_insert (s : State) (disk block : Int) (buf : Buf) : State :=
  let s := s.log (.insert disk block)
  { s with cache := { s.cache with
      entries := (disk, block, fun i => if i < 256 then buf i else 0) :: s.cache.entries } }

/-! ## `mdadm.c` -/

/-- `mdadm_mount` (mdadm.c 14-24). -/
def mdadm_mount (s : State) : Int × State :=
  if s.MOUNTED then (-1, s)
  else
    let s := (jbod_operation s JBOD_MOUNT none).1
    (1, { s with MOUNTED := true })

/-- `mdadm_unmount` (mdadm.c 27-37). -/
def mdadm_unmount (s : State) : Int × State :=
  if !s.MOUNTED then (-1, s)
  else
    let s := (jbod_operation s JBOD_UNMOUNT none).1
    (1, { s with MOUNTED := false })

/-- `op` (mdadm.c 40-43), on `uint32_t`. -/
def op (diskID blockID command : Nat) : Nat :=
  ((diskID <<< 28) % 4294967296) ||| ((blockID <<< 20) % 4294967296)
    ||| ((command <<< 14) % 4294967296)

/-- The bytes `memcpy(dst + dstOff, src + srcOff, n)` leaves behind `dst`. -/
def memcpy (dst : Buf) (dstOff : Nat) (src : Buf) (srcOff : Nat) (n : Nat) : Buf :=
  fun i => if dstOff ≤ i ∧ i < dstOff + n then src (srcOff + (i - dstOff)) else dst i

/-- `memcpy(read_buf + dstOff, temp_buf + srcOff, n)` of `mdadm_read`. -/
def copyOut (s : State) (read_buf : Option Buf) (dstOff : Int) (temp_buf : Buf)
    (srcOff n : Int) : Except Fault (State × Option Buf) :=
  match read_buf with
  | none => .error .nullBuffer
  | some b =>
      if srcOff < 0 ∨ n < 0 ∨ 256 < srcOff + n ∨ dstOff < 0 then .error .tempBufRange
      else .ok (s.log (.memcpy dstOff srcOff n),
                some (memcpy b dstOff.toNat temp_buf srcOff.toNat n.toNat))

/-- `memcpy(temp_buf + dstOff, write_buf + srcOff, n)` of `mdadm_write`. -/
def copyIn (s : State) (temp_buf : Buf) (dstOff : Int) (write_buf : Buf)
    (srcOff n : Int) : Except Fault (State × Buf) :=
  if dstOff < 0 ∨ n < 0 ∨ 256 < dstOff + n ∨ srcOff < 0 then .error .tempBufRange
  else .ok (s.log (.memcpy srcOff dstOff n),
            memcpy temp_buf dstOff.toNat write_buf srcOff.toNat n.toNat)

/-- The variables of the cache-enabled `for` loop of `mdadm_read`. -/
structure CacheVars where
  s : State
  i : Nat
  temp_buf : Buf
  read_buf : Option Buf

/-- One pass through the body of the cache-enabled `for` loop of `mdadm_read`
(mdadm.c 69-91) followed by its increment `i += JBOD_BLOCK_SIZE`.
`current_address` is never assigned in this loop. -/
def readCacheBody (read_len : Nat) (current_address : Int) (v : CacheVars) :
    Except Fault CacheVars :=
  let current_disk := current_address.tdiv 65536
  let current_block := (current_address.tmod 65536).tdiv 256
  let r := cache_lookup v.s current_disk current_block v.temp_buf
  let miss :=
    let jbod_disk := op (u32 current_disk) 0 JBOD_SEEK_TO_DISK
    let s1 := (jbod_operation r.2.1 jbod_disk none).1
    let jbod_block := op 0 (u32 current_block) JBOD_SEEK_TO_BLOCK
    let s2 := (jbod_operation s1 jbod_block none).1
    let jbod_read := op 0 0 JBOD_READ_BLOCK
    let r3 := jbod_operation s2 jbod_read (some r.2.2)
    let temp_buf3 := r3.2.getD r.2.2
    (cache_insert r3.1 current_disk current_block temp_buf3, temp_buf3)
  let s := if r.1 = -1 then miss.1 else r.2.1
  let temp_buf := if r.1 = -1 then miss.2 else r.2.2
  let bytes_to_copy := i32 (min (usub32 read_len v.i) JBOD_BLOCK_SIZE)
  match copyOut s v.read_buf (v.i : Int) temp_buf 0 bytes_to_copy with
  | .error e => .error e
  | .ok (s, read_buf) =>
      .ok { s := s, i := (v.i + JBOD_BLOCK_SIZE) % 4294967296, temp_buf := temp_buf,
            read_buf := read_buf }

/-- The cache-enabled `for` loop of `mdadm_read` (mdadm.c 67-92). -/
def readCacheLoop (read_len : Nat) (current_address : Int) :
    Nat → CacheVars → Except Fault CacheVars
  | 0, v => if v.i < read_len then .error .outOfFuel else .ok v
  | fuel + 1, v =>
      if v.i < read_len then
        match readCacheBody read_len current_address v with
        | .error e => .error e
        | .ok v => readCacheLoop read_len current_address fuel v
      else .ok v

/-- The variables of the cache-disabled `while` loop of `mdadm_read`. -/
structure ReadVars where
  s : State
  current_address : Int
  current_disk : Int
  current_block : Int
  offset : Int
  read_bytes : Int
  temp_buf : Buf
  read_buf : Option Buf

/-- One pass through the body of the cache-disabled `while` loop of
`mdadm_read` (mdadm.c 99-127). `copied` is the length of the `memcpy` of the
branch taken (`remaining_bytes` or `256 - offset`), which is also what is
added to `read_bytes`. -/
def readBody (read_len : Nat) (v : ReadVars) : Except Fault ReadVars :=
  let jbod_disk := op (u32 v.current_disk) 0 JBOD_SEEK_TO_DISK
  let s := (jbod_operation v.s jbod_disk none).1
  let jbod_block := op 0 (u32 v.current_block) JBOD_SEEK_TO_BLOCK
  let s := (jbod_operation s jbod_block none).1
  let jbod_read := op 0 0 JBOD_READ_BLOCK
  let r := jbod_operation s jbod_read (some v.temp_buf)
  let temp_buf := r.2.getD v.temp_buf
  let remaining_bytes := i32 (usub32 read_len (u32 v.read_bytes))
  let copied := if v.offset + remaining_bytes < 256 then remaining_bytes else 256 - v.offset
  match copyOut r.1 v.read_buf v.read_bytes temp_buf v.offset copied with
  | .error e => .error e
  | .ok (s, read_buf) =>
      let read_bytes := v.read_bytes + copied
      let current_address := v.current_address + read_bytes
      let current_disk := current_address.tdiv 65536
      let current_block := (current_address.tmod 65536).tdiv 256
      let update_disk := op (u32 current_disk) 0 JBOD_SEEK_TO_DISK
      let s := (jbod_operation s update_disk none).1
      let update_block := op 0 (u32 current_block) JBOD_SEEK_TO_BLOCK
      let s := (jbod_operation s update_block none).1
      .ok { s := s, current_address := current_address, current_disk := current_disk,
            current_block := current_block, offset := 0, read_bytes := read_bytes,
            temp_buf := temp_buf, read_buf := read_buf }

/-- The cache-disabled `while` loop of `mdadm_read` (mdadm.c 97-128). -/
def readLoop (read_len : Nat) : Nat → ReadVars → Except Fault ReadVars
  | 0, v => if u32 v.read_bytes < read_len then .error .outOfFuel else .ok v
  | fuel + 1, v =>
      if u32 v.read_bytes < read_len then
        match readBody read_len v with
        | .error e => .error e
        | .ok v => readLoop read_len fuel v
      else .ok v

/-- `mdadm_read` (mdadm.c 46-132). `JBOD_NUM_DISKS` is the constant of
`jbod.h`, which is not part of the sources; `temp_buf` is the content the
uninitialised local arrays start with. The result is the returned `int`, the
state afterwards and the memory behind `read_buf` afterwards. -/
def mdadm_read (JBOD_NUM_DISKS : Nat) (s : State) (start_addr read_len : Nat)
    (read_buf : Option Buf) (temp_buf : Buf) : Except Fault (Int × State × Option Buf) :=
  let MAX_READ_LEN : Int := 1024
  let MAX_BOUNDS : Int := (JBOD_NUM_DISKS : Int) * (JBOD_DISK_SIZE : Int)
  if !s.MOUNTED || (read_len != 0 && (decide (read_len > u32 MAX_READ_LEN) || read_buf.isNone))
      || decide ((start_addr + read_len) % 4294967296 > u32 MAX_BOUNDS) then
    .ok (-1, s, read_buf)
  else
    let current_address : Int := i32 start_addr
    let current_disk : Int := i32 (start_addr / 65536)
    let current_block : Int := i32 ((start_addr % 65536) / 256)
    let offset : Int := current_address.tmod 256
    let read_bytes : Int := 0
    if cache_enabled s then
      match readCacheLoop read_len current_address read_len
          { s := s, i := 0, temp_buf := temp_buf, read_buf := read_buf } with
      | .error e => .error e
      | .ok v => .ok (i32 read_len, v.s, v.read_buf)
    else
      match readLoop read_len read_len
          { s := s, current_address := current_address, current_disk := current_disk,
            current_block := current_block, offset := offset, read_bytes := read_bytes,
            temp_buf := temp_buf, read_buf := read_buf } with
      | .error e => .error e
      | .ok v => .ok (v.read_bytes, v.s, v.read_buf)

/-- The variables of the `while` loop of `mdadm_write`. -/
structure WriteVars where
  s : State
  written_bytes : Int
  temp_buf : Buf

/-- One pass through the body of the `while` loop of `mdadm_write`
(mdadm.c 151-174). -/
def writeBody (start_addr write_len : Nat) (write_buf : Buf) (v : WriteVars) :
    Except Fault WriteVars :=
  let current_address : Int := i32 ((start_addr + u32 v.written_bytes) % 4294967296)
  let current_disk := current_address.tdiv 65536
  let current_block := (current_address.tmod 65536).tdiv 256
  let offset := current_address.tmod 256
  let jbod_disk := op (u32 current_disk) 0 JBOD_SEEK_TO_DISK
  let s := (jbod_operation v.s jbod_disk none).1
  let jbod_block := op 0 (u32 current_block) JBOD_SEEK_TO_BLOCK
  let s := (jbod_operation s jbod_block none).1
  let remaining_bytes := i32 (usub32 write_len (u32 v.written_bytes))
  let bytes_to_write : Int :=
    if offset ≠ 0 then 256 - offset
    else (if remaining_bytes < 256 then remaining_bytes else 256)
  match copyIn s v.temp_buf offset write_buf v.written_bytes bytes_to_write with
  | .error e => .error e
  | .ok (s, temp_buf) =>
      let write_the_block := op 0 0 JBOD_WRITE_BLOCK
      let s := (jbod_operation s write_the_block (some temp_buf)).1
      .ok { s := s, written_bytes := v.written_bytes + bytes_to_write, temp_buf := temp_buf }

/-- The `while` loop of `mdadm_write` (mdadm.c 150-175). -/
def writeLoop (start_addr write_len : Nat) (write_buf : Buf) :
    Nat → WriteVars → Except Fault WriteVars
  | 0, v => if u32 v.written_bytes < write_len then .error .outOfFuel else .ok v
  | fuel + 1, v =>
      if u32 v.written_bytes < write_len then
        match writeBody start_addr write_len write_buf v with
        | .error e => .error e
        | .ok v => writeLoop start_addr write_len write_buf fuel v
      else .ok v

/-- `mdadm_write` (mdadm.c 134-178). `temp_buf` is the content the
uninitialised local array starts with. The result is the returned `int` and
the state afterwards; the memory behind `write_buf` is `const`. -/
def mdadm_write (s : State) (start_addr write_len : Nat) (write_buf : Option Buf)
    (temp_buf : Buf) : Except Fault (Int × State) :=
  if !s.MOUNTED || decide ((start_addr + write_len) % 4294967296 > 1048576)
      || decide (write_len > 1024) then
    .ok (-1, s)
  else if write_len == 0 && write_buf.isNone then
    .ok (0, s)
  else if write_len != 0 && write_buf.isNone then
    .ok (-1, s)
  else
    match write_buf with
    | none => .error .nullBuffer
    | some b =>
        match writeLoop start_addr write_len b write_len
            { s := s, written_bytes := 0, temp_buf := temp_buf } with
        | .error e => .error e
        | .ok v => .ok (i32 write_len, v.s)

/-! ## Concrete states and buffers -/

/-- A device whose every byte is zero, cursor at disk 0, block 0. -/
def zeroJbod : Jbod := { disk := 0, block := 0, mem := fun _ _ _ => 0 }

/-- A device in which the byte at in-block index `i` is `i`, in every block. -/
def rampJbod : Jbod := { disk := 0, block := 0, mem := fun _ _ i => Fin.ofNat i }

/-- A state with an empty trace and an empty cache. -/
def mkState (mounted cacheOn : Bool) (j : Jbod) : State :=
  { MOUNTED := mounted, jbod := j, cache := { enabled := cacheOn, entries := [] }, trace := [] }

/-- Memory that reads `c` everywhere. -/
def constBuf (c : Byte) : Buf := fun _ => c

/-- Memory holding `1, 2, 3, ...` from distance 0 on. -/
def countBuf : Buf := fun i => Fin.ofNat (i + 1)

/-- The returned `int` of a read, if it returned. -/
def readRet (r : Except Fault (Int × State × Option Buf)) : Option Int :=
  match r with
  | .ok (v, _, _) => some v
  | .error _ => none

/-- Byte `i` behind `read_buf` after a read, if it returned with a buffer. -/
def readByte (r : Except Fault (Int × State × Option Buf)) (i : Nat) : Option Byte :=
  match r with
  | .ok (_, _, some b) => some (b i)
  | _ => none

/-- The state after a read, if it returned. -/
def readState (r : Except Fault (Int × State × Option Buf)) : Option State :=
  match r with
  | .ok (_, s, _) => some s
  | .error _ => none

/-- The returned `int` of a write, if it returned. -/
def writeRet (r : Except Fault (Int × State)) : Option Int :=
  match r with
  | .ok (v, _) => some v
  | .error _ => none

/-- The state after a write, or the given state if it did not return. -/
def writeStateD (r : Except Fault (Int × State)) (d : State) : State :=
  match r with
  | .ok (_, s) => s
  | .error _ => d

/-! ## Closed forms of a fault-free loop pass -/

/-- The number of bytes one pass of the cache-disabled read loop copies when
`read_bytes < read_len`: the `remaining_bytes` or `256 - offset` of the
source. -/
def readCopied (read_len : Nat) (v : ReadVars) : Int :=
  if v.offset + ((read_len : Int) - v.read_bytes) < 256 then (read_len : Int) - v.read_bytes
  else 256 - v.offset

/-- The variables after one pass of `readBody` whose `memcpy` stays inside
`temp_buf` and goes to the present buffer `b`. -/
def readNext (read_len : Nat) (v : ReadVars) (b : Buf) : ReadVars :=
  let s := (jbod_operation v.s (op (u32 v.current_disk) 0 JBOD_SEEK_TO_DISK) none).1
  let s := (jbod_operation s (op 0 (u32 v.current_block) JBOD_SEEK_TO_BLOCK) none).1
  let r := jbod_operation s (op 0 0 JBOD_READ_BLOCK) (some v.temp_buf)
  let temp_buf := r.2.getD v.temp_buf
  let copied := readCopied read_len v
  let s := r.1.log (.memcpy v.read_bytes v.offset copied)
  let read_bytes := v.read_bytes + copied
  let current_address := v.current_address + read_bytes
  let current_disk := current_address.tdiv 65536
  let current_block := (current_address.tmod 65536).tdiv 256
  let s := (jbod_operation s (op (u32 current_disk) 0 JBOD_SEEK_TO_DISK) none).1
  let s := (jbod_operation s (op 0 (u32 current_block) JBOD_SEEK_TO_BLOCK) none).1
  { s := s, current_address := current_address, current_disk := current_disk,
    current_block := current_block, offset := 0, read_bytes := read_bytes,
    temp_buf := temp_buf,
    read_buf := some (memcpy b v.read_bytes.toNat temp_buf v.offset.toNat copied.toNat) }

/-- The number of bytes one pass of the write loop copies when
`written_bytes = w < write_len`: the `bytes_to_write` of the source. -/
def writeCopied (start_addr write_len : Nat) (w : Nat) : Nat :=
  if (start_addr + w) % 256 ≠ 0 then 256 - (start_addr + w) % 256
  else (if write_len - w < 256 then write_len - w else 256)

/-- The variables after one pass of `writeBody` at `written_bytes = w` whose
`memcpy` stays inside `temp_buf`, for an address that fits the disk field of
the command word. -/
def writeNext (start_addr write_len : Nat) (write_buf : Buf) (v : WriteVars) (w : Nat) :
    WriteVars :=
  let a := start_addr + w
  let c := writeCopied start_addr write_len w
  let tb := memcpy v.temp_buf (a % 256) write_buf w c
  { s := { MOUNTED := v.s.MOUNTED,
           jbod := { disk := a / 65536, block := a % 65536 / 256,
                     mem := fun d k i =>
                       if d = a / 65536 ∧ k = a % 65536 / 256 ∧ i < 256 then tb i
                       else v.s.jbod.mem d k i },
           cache := v.s.cache,
           trace := v.s.trace ++
             [Event.jbod (op (a / 65536) 0 JBOD_SEEK_TO_DISK),
              Event.jbod (op 0 (a % 65536 / 256) JBOD_SEEK_TO_BLOCK),
              Event.memcpy (w : Int) ((a % 256 : Nat) : Int) (c : Int),
              Event.jbod (op 0 0 JBOD_WRITE_BLOCK)] },
    written_bytes := ((w + c : Nat) : Int),
    temp_buf := tb }

/-! ## The passes of the loops on a valid request -/

/-- What one pass of the `mdadm_write` loop does: the disk and block it
selects, the index of `temp_buf` it copies to, `written_bytes` before the pass
(the distance into `write_buf` it copies from) and `bytes_to_write`. -/
structure WritePass where
  disk : Nat
  block : Nat
  offset : Nat
  written_bytes : Nat
  bytes_to_write : Nat
  deriving DecidableEq, Repr

/-- The collaborator calls and the `memcpy` of one pass of the write loop, in
the order of mdadm.c 157-172. -/
def WritePass.events (p : WritePass) : List Event :=
  [Event.jbod (op p.disk 0 JBOD_SEEK_TO_DISK),
   Event.jbod (op 0 p.block JBOD_SEEK_TO_BLOCK),
   Event.memcpy (p.written_bytes : Int) (p.offset : Int) (p.bytes_to_write : Int),
   Event.jbod (op 0 0 JBOD_WRITE_BLOCK)]

/-- The passes of the write loop from `written_bytes = w` on, in natural
numbers: each pass works at address `start_addr + w` and adds `bytes_to_write`
to `w`, as long as `w < write_len`. -/
def writePlan (start_addr write_len : Nat) : Nat → Nat → List WritePass
  | 0, _ => []
  | fuel + 1, w =>
      if w < write_len then
        { disk := (start_addr + w) / 65536, block := (start_addr + w) % 65536 / 256,
          offset := (start_addr + w) % 256, written_bytes := w,
          bytes_to_write := writeCopied start_addr write_len w }
          :: writePlan start_addr write_len fuel (w + writeCopied start_addr write_len w)
      else []

/-- The events of a sequence of write passes. -/
def writeEvents : List WritePass → List Event
  | [] => []
  | p :: ps => p.events ++ writeEvents ps

/-- What one pass of the cache-disabled `mdadm_read` loop does: the disk and
block it selects and reads, the index of `temp_buf` it copies from,
`read_bytes` before the pass (the distance into `read_buf` it copies to), the
number of bytes copied, and the disk and block it re-selects at its end. -/
structure ReadPass where
  disk : Nat
  block : Nat
  offset : Nat
  read_bytes : Nat
  copied : Nat
  next_disk : Nat
  next_block : Nat
  deriving DecidableEq, Repr

/-- The collaborator calls and the `memcpy` of one pass of the cache-disabled
read loop, in the order of mdadm.c 100-126. -/
def ReadPass.events (p : ReadPass) : List Event :=
  [Event.jbod (op p.disk 0 JBOD_SEEK_TO_DISK),
   Event.jbod (op 0 p.block JBOD_SEEK_TO_BLOCK),
   Event.jbod (op 0 0 JBOD_READ_BLOCK),
   Event.memcpy (p.read_bytes : Int) (p.offset : Int) (p.copied : Int),
   Event.jbod (op p.next_disk 0 JBOD_SEEK_TO_DISK),
   Event.jbod (op 0 p.next_block JBOD_SEEK_TO_BLOCK)]

/-- The passes of the cache-disabled read loop in natural numbers, from
`current_address = addr`, `offset = off` and `read_bytes = rb` on: each pass
copies `remaining_bytes` or `256 - offset` bytes, adds them to `read_bytes`,
then adds the new `read_bytes` to `current_address` (mdadm.c 119) and sets
`offset` to 0. -/
def readPlan (read_len : Nat) : Nat → Nat → Nat → Nat → List ReadPass
  | 0, _, _, _ => []
  | fuel + 1, addr, off, rb =>
      if rb < read_len then
        let copied := if off + (read_len - rb) < 256 then read_len - rb else 256 - off
        let next := addr + (rb + copied)
        { disk := addr / 65536, block := addr % 65536 / 256, offset := off, read_bytes := rb,
          copied := copied, next_disk := next / 65536, next_block := next % 65536 / 256 }
          :: readPlan read_len fuel next 0 (rb + copied)
      else []

/-- The events of a sequence of read passes. -/
def readEvents : List ReadPass → List Event
  | [] => []
  | p :: ps => p.events ++ readEvents ps

/-- The pieces `(start, size)` tile `[lo, hi)`: each starts where the one
before ended, the first at `lo`, and the last ends at `hi`. -/
def tiles : Nat → Nat → List (Nat × Nat) → Prop
  | lo, hi, [] => lo = hi
  | lo, hi, p :: ps => p.1 = lo ∧ tiles (lo + p.2) hi ps

/-- The piece of `read_buf` a read pass fills. -/
def ReadPass.piece (p : ReadPass) : Nat × Nat := (p.read_bytes, p.copied)

/-- The piece of `write_buf` a write pass copies. -/
def WritePass.piece (p : WritePass) : Nat × Nat := (p.written_bytes, p.bytes_to_write)

/-- The disk and block with global block index `g`: disk `g / 256`, block
`g % 256`. -/
def blockAt (g : Nat) : Nat × Nat := (g / 256, g % 256)

/-- The (disk, block) a write pass selects. -/
def WritePass.target (p : WritePass) : Nat × Nat := (p.disk, p.block)

/-- The (disk, block) a read pass selects and reads. -/
def ReadPass.target (p : ReadPass) : Nat × Nat := (p.disk, p.block)

/-- Whether an event is a read-block directive sent to the device. -/
def isReadBlock (e : Event) : Bool :=
  match e with
  | .jbod w => decide ((w >>> 14) % 64 = JBOD_READ_BLOCK)
  | _ => false

/-- Whether an event is a call of `jbod_operation`. -/
def isJbod (e : Event) : Bool :=
  match e with
  | .jbod _ => true
  | _ => false

/-- The values `current_disk`, `current_block`, `offset` that `mdadm_read`
computes from `start_addr` (mdadm.c 55-58). -/
def readAddr (start_addr : Nat) : Int × Int × Int :=
  (i32 (start_addr / 65536), i32 ((start_addr % 65536) / 256), (i32 start_addr).tmod 256)

/-- The values `current_disk`, `current_block`, `offset` that a pass of
`mdadm_write` computes from `start_addr + written_bytes` (mdadm.c 151-154). -/
def writeAddr (start_addr : Nat) (written_bytes : Int) : Int × Int × Int :=
  let current_address : Int := i32 ((start_addr + u32 written_bytes) % 4294967296)
  (current_address.tdiv 65536, (current_address.tmod 65536).tdiv 256, current_address.tmod 256)

/-- A device in which every byte of block `b` of every disk is `b`. -/
def tagJbod : Jbod := { disk := 0, block := 0, mem := fun _ b _ => Fin.ofNat b }

/-! ## Machine-integer lemmas -/

theorem u32_natCast (n : Nat) (h : n < 4294967296) : u32 (n : Int) = n := by
  unfold u32; omega

theorem i32_of_lt (n : Nat) (h : n < 2147483648) : i32 n = (n : Int) := by
  unfold i32; split <;> omega

theorem i32_nonneg_of_le (n : Nat) (h : n ≤ 1024) : 0 ≤ i32 n := by
  rw [i32_of_lt n (by omega)]; omega

theorem usub32_of_le (a b : Nat) (hb : b ≤ a) (ha : a < 4294967296) : usub32 a b = a - b := by
  unfold usub32; omega

theorem tdiv_natCast (a b : Nat) : (a : Int).tdiv (b : Int) = ((a / b : Nat) : Int) :=
  (Int.ofNat_tdiv a b).symm

theorem tmod_natCast (a b : Nat) : (a : Int).tmod (b : Int) = ((a % b : Nat) : Int) :=
  (Int.ofNat_tmod a b).symm

theorem op_seek_disk_cmd : ∀ d < 16, (op d 0 JBOD_SEEK_TO_DISK >>> 14) % 64 = 2 := by decide

theorem op_seek_disk_disk : ∀ d < 16, (op d 0 JBOD_SEEK_TO_DISK >>> 28) % 16 = d := by decide

set_option maxRecDepth 100000 in
theorem op_seek_block_cmd : ∀ b < 256, (op 0 b JBOD_SEEK_TO_BLOCK >>> 14) % 64 = 3 := by decide

set_option maxRecDepth 100000 in
theorem op_seek_block_block : ∀ b < 256, (op 0 b JBOD_SEEK_TO_BLOCK >>> 20) % 256 = b := by
  decide

/-! ## Collaborator and copy lemmas -/

theorem jbod_operation_trace (s : State) (w : Nat) (b : Option Buf) :
    (jbod_operation s w b).1.trace = s.trace ++ [Event.jbod w] := by
  unfold jbod_operation State.log
  cases b <;> simp only [] <;> split_ifs <;> rfl

theorem jbod_operation_MOUNTED (s : State) (w : Nat) (b : Option Buf) :
    (jbod_operation s w b).1.MOUNTED = s.MOUNTED := by
  unfold jbod_operation State.log
  cases b <;> simp only [] <;> split_ifs <;> rfl

theorem jbod_operation_cache (s : State) (w : Nat) (b : Option Buf) :
    (jbod_operation s w b).1.cache = s.cache := by
  unfold jbod_operation State.log
  cases b <;> simp only [] <;> split_ifs <;> rfl

theorem jbod_operation_none_mem (s : State) (w : Nat) :
    (jbod_operation s w none).1.jbod.mem = s.jbod.mem := by
  unfold jbod_operation State.log
  simp only []; split_ifs <;> rfl

theorem copyOut_ok {s s1 : State} {rbuf b1 : Option Buf} {d so n : Int} {tb : Buf}
    (h : copyOut s rbuf d tb so n = .ok (s1, b1)) :
    0 ≤ so ∧ 0 ≤ n ∧ so + n ≤ 256 ∧ 0 ≤ d ∧ s1 = s.log (.memcpy d so n) ∧
      ∃ b, rbuf = some b ∧ b1 = some (memcpy b d.toNat tb so.toNat n.toNat) := by
  unfold copyOut at h
  cases rbuf with
  | none => simp at h
  | some b =>
      simp only [] at h
      split_ifs at h with hc
      simp only [Except.ok.injEq, Prod.mk.injEq] at h
      refine ⟨by omega, by omega, by omega, by omega, h.1.symm, b, rfl, h.2.symm⟩

theorem copyOut_some (s : State) (b : Buf) (d so n : Int) (tb : Buf)
    (h1 : 0 ≤ so) (h2 : 0 ≤ n) (h3 : so + n ≤ 256) (h4 : 0 ≤ d) :
    copyOut s (some b) d tb so n
      = .ok (s.log (.memcpy d so n), some (memcpy b d.toNat tb so.toNat n.toNat)) := by
  unfold copyOut
  simp only []
  rw [if_neg (by omega)]

theorem copyIn_ok {s s1 : State} {tb tb1 wb : Buf} {d so n : Int}
    (h : copyIn s tb d wb so n = .ok (s1, tb1)) :
    0 ≤ d ∧ 0 ≤ n ∧ d + n ≤ 256 ∧ 0 ≤ so ∧ s1 = s.log (.memcpy so d n) ∧
      tb1 = memcpy tb d.toNat wb so.toNat n.toNat := by
  unfold copyIn at h
  split_ifs at h with hc
  simp only [Except.ok.injEq, Prod.mk.injEq] at h
  exact ⟨by omega, by omega, by omega, by omega, h.1.symm, h.2.symm⟩

theorem copyIn_some (s : State) (tb wb : Buf) (d so n : Int)
    (h1 : 0 ≤ d) (h2 : 0 ≤ n) (h3 : d + n ≤ 256) (h4 : 0 ≤ so) :
    copyIn s tb d wb so n
      = .ok (s.log (.memcpy so d n), memcpy tb d.toNat wb so.toNat n.toNat) := by
  unfold copyIn
  rw [if_neg (by omega)]

/-! ## The device after each directive -/

@[simp] theorem log_trace (s : State) (e : Event) : (s.log e).trace = s.trace ++ [e] := rfl

@[simp] theorem log_jbod (s : State) (e : Event) : (s.log e).jbod = s.jbod := rfl

@[simp] theorem log_cache (s : State) (e : Event) : (s.log e).cache = s.cache := rfl

@[simp] theorem log_MOUNTED (s : State) (e : Event) : (s.log e).MOUNTED = s.MOUNTED := rfl

theorem jbod_seek_disk (s : State) (d : Nat) (hd : d < 16) (b : Option Buf) :
    jbod_operation s (op d 0 JBOD_SEEK_TO_DISK) b
      = ({ s.log (.jbod (op d 0 JBOD_SEEK_TO_DISK)) with
            jbod := { s.jbod with disk := d } }, b) := by
  unfold jbod_operation
  simp only [op_seek_disk_cmd d hd, op_seek_disk_disk d hd]
  rw [if_pos (by rfl)]
  rfl

theorem jbod_seek_block (s : State) (k : Nat) (hk : k < 256) (b : Option Buf) :
    jbod_operation s (op 0 k JBOD_SEEK_TO_BLOCK) b
      = ({ s.log (.jbod (op 0 k JBOD_SEEK_TO_BLOCK)) with
            jbod := { s.jbod with block := k } }, b) := by
  unfold jbod_operation
  simp only [op_seek_block_cmd k hk, op_seek_block_block k hk]
  rw [if_neg (by decide), if_pos (by rfl)]
  rfl

theorem jbod_read_block (s : State) (tb : Buf) :
    jbod_operation s (op 0 0 JBOD_READ_BLOCK) (some tb)
      = (s.log (.jbod (op 0 0 JBOD_READ_BLOCK)),
          some (fun i => if i < 256 then s.jbod.mem s.jbod.disk s.jbod.block i else tb i)) := by
  rfl

theorem jbod_write_block (s : State) (tb : Buf) :
    jbod_operation s (op 0 0 JBOD_WRITE_BLOCK) (some tb)
      = ({ s.log (.jbod (op 0 0 JBOD_WRITE_BLOCK)) with
            jbod := { s.jbod with mem := (fun d k i =>
              if d = s.jbod.disk ∧ k = s.jbod.block ∧ i < 256 then tb i else s.jbod.mem d k i) } },
          some tb) := by
  rfl

theorem u32_of_nonneg (x : Int) (h0 : 0 ≤ x) (h1 : x < 4294967296) :
    ((u32 x : Nat) : Int) = x := by
  unfold u32; omega

theorem remaining_eq (L : Nat) (rb : Int) (h0 : 0 ≤ rb) (hlt : rb < L)
    (hL : L < 2147483648) : i32 (usub32 L (u32 rb)) = (L : Int) - rb := by
  have hr := u32_of_nonneg rb h0 (by omega)
  have hu : usub32 L (u32 rb) = L - u32 rb := by unfold usub32; omega
  rw [hu, i32_of_lt _ (by omega)]
  omega

/-! ## Loops: exit and return value -/

theorem readLoop_exit (L fuel : Nat) (v : ReadVars) (h : ¬ u32 v.read_bytes < L) :
    readLoop L fuel v = .ok v := by
  cases fuel <;> simp [readLoop, h]

theorem readLoop_succ (L fuel : Nat) (v : ReadVars) (h : u32 v.read_bytes < L) :
    readLoop L (fuel + 1) v
      = match readBody L v with
        | .error e => .error e
        | .ok v => readLoop L fuel v := by
  simp [readLoop, h]

theorem readCacheLoop_exit (L : Nat) (ca : Int) (fuel : Nat) (v : CacheVars)
    (h : ¬ v.i < L) : readCacheLoop L ca fuel v = .ok v := by
  cases fuel <;> simp [readCacheLoop, h]

theorem readCacheLoop_succ (L : Nat) (ca : Int) (fuel : Nat) (v : CacheVars) (h : v.i < L) :
    readCacheLoop L ca (fuel + 1) v
      = match readCacheBody L ca v with
        | .error e => .error e
        | .ok v => readCacheLoop L ca fuel v := by
  simp [readCacheLoop, h]

theorem writeLoop_exit (a L : Nat) (wb : Buf) (fuel : Nat) (v : WriteVars)
    (h : ¬ u32 v.written_bytes < L) : writeLoop a L wb fuel v = .ok v := by
  cases fuel <;> simp [writeLoop, h]

theorem writeLoop_succ (a L : Nat) (wb : Buf) (fuel : Nat) (v : WriteVars)
    (h : u32 v.written_bytes < L) :
    writeLoop a L wb (fuel + 1) v
      = match writeBody a L wb v with
        | .error e => .error e
        | .ok v => writeLoop a L wb fuel v := by
  simp [writeLoop, h]

theorem readBody_read_bytes_nonneg (L : Nat) (v v1 : ReadVars) (h : readBody L v = .ok v1)
    (hrb : 0 ≤ v.read_bytes) : 0 ≤ v1.read_bytes := by
  unfold readBody at h
  simp only [] at h
  split at h
  · exact absurd h (by simp)
  · rename_i s2 b2 hco
    have hn := (copyOut_ok hco).2.1
    simp only [Except.ok.injEq] at h
    subst h
    simp only []
    omega

theorem readLoop_ret_nonneg (L : Nat) :
    ∀ (fuel : Nat) (v v1 : ReadVars), readLoop L fuel v = .ok v1 → 0 ≤ v.read_bytes →
      0 ≤ v1.read_bytes := by
  intro fuel
  induction fuel with
  | zero =>
      intro v v1 h hrb
      simp only [readLoop] at h
      split_ifs at h
      cases h
      exact hrb
  | succ k ih =>
      intro v v1 h hrb
      by_cases hc : u32 v.read_bytes < L
      · rw [readLoop_succ L k v hc] at h
        split at h
        · exact absurd h (by simp)
        · rename_i v2 hb
          exact ih v2 v1 h (readBody_read_bytes_nonneg L v v2 hb hrb)
      · rw [readLoop_exit L _ v hc] at h
        cases h
        exact hrb

/-! ## One pass of the read loops -/

theorem readCopied_bounds (L : Nat) (v : ReadVars) (hoff : 0 ≤ v.offset) (hoff2 : v.offset < 256)
    (hlt : v.read_bytes < L) :
    0 < readCopied L v ∧ v.read_bytes + readCopied L v ≤ L ∧
      v.offset + readCopied L v ≤ 256 := by
  unfold readCopied
  split <;> omega

theorem readBody_ok (L : Nat) (v : ReadVars) (b : Buf) (hbuf : v.read_buf = some b)
    (hoff : 0 ≤ v.offset) (hoff2 : v.offset < 256) (hrb : 0 ≤ v.read_bytes)
    (hlt : v.read_bytes < L) (hL : L ≤ 1024) :
    readBody L v = .ok (readNext L v b) := by
  have hc := readCopied_bounds L v hoff hoff2 hlt
  unfold readBody
  simp only [remaining_eq L v.read_bytes hrb hlt (by omega), hbuf]
  have hcop : (if v.offset + ((L : Int) - v.read_bytes) < 256 then (L : Int) - v.read_bytes
      else 256 - v.offset) = readCopied L v := rfl
  rw [hcop, copyOut_some _ _ _ _ _ _ hoff (by omega) (by omega) hrb]
  rfl

theorem readNext_read_bytes (L : Nat) (v : ReadVars) (b : Buf) :
    (readNext L v b).read_bytes = v.read_bytes + readCopied L v := rfl

theorem readNext_offset (L : Nat) (v : ReadVars) (b : Buf) : (readNext L v b).offset = 0 := rfl

theorem readNext_read_buf (L : Nat) (v : ReadVars) (b : Buf) :
    ∃ b1, (readNext L v b).read_buf = some b1 := ⟨_, rfl⟩

theorem readNext_trace (L : Nat) (v : ReadVars) (b : Buf) :
    (readNext L v b).s.trace = v.s.trace ++
      [Event.jbod (op (u32 v.current_disk) 0 JBOD_SEEK_TO_DISK),
       Event.jbod (op 0 (u32 v.current_block) JBOD_SEEK_TO_BLOCK),
       Event.jbod (op 0 0 JBOD_READ_BLOCK),
       Event.memcpy v.read_bytes v.offset (readCopied L v),
       Event.jbod (op (u32 (readNext L v b).current_disk) 0 JBOD_SEEK_TO_DISK),
       Event.jbod (op 0 (u32 (readNext L v b).current_block) JBOD_SEEK_TO_BLOCK)] := by
  simp only [readNext, jbod_operation_trace, log_trace, List.append_assoc, List.singleton_append,
    List.cons_append, List.nil_append]

theorem readCacheBody_ok (L : Nat) (ca : Int) (v : CacheVars) (b : Buf)
    (hbuf : v.read_buf = some b) (hi : v.i < L) (hL : L ≤ 1024) :
    ∃ v1, readCacheBody L ca v = .ok v1 ∧ v1.i = v.i + 256 ∧ ∃ b1, v1.read_buf = some b1 := by
  have hu : usub32 L v.i = L - v.i := usub32_of_le L v.i (by omega) (by omega)
  have hn : 0 ≤ i32 (min (usub32 L v.i) JBOD_BLOCK_SIZE) ∧
      i32 (min (usub32 L v.i) JBOD_BLOCK_SIZE) ≤ 256 := by
    rw [hu, i32_of_lt _ (by unfold JBOD_BLOCK_SIZE; omega)]
    unfold JBOD_BLOCK_SIZE
    omega
  unfold readCacheBody
  simp only [hbuf]
  rw [copyOut_some _ _ _ _ _ _ (le_refl _) hn.1 (by omega) (by omega)]
  refine ⟨_, rfl, ?_, _, rfl⟩
  show (v.i + JBOD_BLOCK_SIZE) % 4294967296 = v.i + 256
  unfold JBOD_BLOCK_SIZE
  omega

/-! ## The read loops run to completion -/

theorem u32_lt_iff (L : Nat) (x : Int) (h0 : 0 ≤ x) (h1 : x < 4294967296) :
    u32 x < L ↔ x < (L : Int) := by
  have := u32_of_nonneg x h0 h1
  omega

theorem readLoop_total (L : Nat) (hL : L ≤ 1024) :
    ∀ (fuel : Nat) (v : ReadVars) (b : Buf), v.read_buf = some b → 0 ≤ v.offset →
      v.offset < 256 → 0 ≤ v.read_bytes → v.read_bytes ≤ L → (L : Int) - v.read_bytes ≤ fuel →
      ∃ v1, readLoop L fuel v = .ok v1 ∧ v1.read_bytes = L ∧ (∃ b1, v1.read_buf = some b1) ∧
        v1.s.MOUNTED = v.s.MOUNTED ∧
        ∀ c t n, Event.memcpy c t n ∈ v1.s.trace → Event.memcpy c t n ∈ v.s.trace ∨
          (0 ≤ c ∧ 0 < n ∧ c + n ≤ L ∧ 0 ≤ t ∧ t + n ≤ 256) := by
  intro fuel
  induction fuel with
  | zero =>
      intro v b hbuf _ _ h0 hle hfuel
      have hx : ¬ u32 v.read_bytes < L := by
        rw [u32_lt_iff L _ h0 (by omega)]; omega
      refine ⟨v, readLoop_exit L 0 v hx, by omega, ⟨b, hbuf⟩, rfl, fun c t n h => Or.inl h⟩
  | succ k ih =>
      intro v b hbuf hoff hoff2 h0 hle hfuel
      by_cases hlt : v.read_bytes < (L : Int)
      · have hx : u32 v.read_bytes < L := (u32_lt_iff L _ h0 (by omega)).2 hlt
        have hc := readCopied_bounds L v hoff hoff2 hlt
        rw [readLoop_succ L k v hx, readBody_ok L v b hbuf hoff hoff2 h0 hlt hL]
        obtain ⟨b1, hb1⟩ := readNext_read_buf L v b
        obtain ⟨v1, hrun, hfin, hb, hmt, htr⟩ := ih (readNext L v b) b1 hb1
          (by rw [readNext_offset]) (by rw [readNext_offset]; omega)
          (by rw [readNext_read_bytes]; omega) (by rw [readNext_read_bytes]; omega)
          (by rw [readNext_read_bytes]; omega)
        refine ⟨v1, hrun, hfin, hb, ?_, ?_⟩
        · rw [hmt]
          simp only [readNext, jbod_operation_MOUNTED, log_MOUNTED]
        · intro c t n hmem
          rcases htr c t n hmem with h | h
          · rw [readNext_trace] at h
            simp only [List.mem_append, List.mem_cons, List.mem_singleton, Event.memcpy.injEq,
              List.mem_nil_iff, or_false, false_or, reduceCtorEq] at h
            rcases h with h | ⟨rfl, rfl, rfl⟩
            · exact Or.inl h
            · exact Or.inr ⟨h0, hc.1, hc.2.1, hoff, hc.2.2⟩
          · exact Or.inr h
      · have hx : ¬ u32 v.read_bytes < L := by
          rw [u32_lt_iff L _ h0 (by omega)]; exact hlt
        refine ⟨v, readLoop_exit L _ v hx, by omega, ⟨b, hbuf⟩, rfl, fun c t n h => Or.inl h⟩

theorem readCacheLoop_total (L : Nat) (ca : Int) (hL : L ≤ 1024) :
    ∀ (fuel : Nat) (v : CacheVars) (b : Buf), v.read_buf = some b → L - v.i ≤ fuel →
      ∃ v1, readCacheLoop L ca fuel v = .ok v1 ∧ ∃ b1, v1.read_buf = some b1 := by
  intro fuel
  induction fuel with
  | zero =>
      intro v b hbuf hfuel
      exact ⟨v, readCacheLoop_exit L ca 0 v (by omega), b, hbuf⟩
  | succ k ih =>
      intro v b hbuf hfuel
      by_cases hlt : v.i < L
      · obtain ⟨v1, hv1, hi, b1, hb1⟩ := readCacheBody_ok L ca v b hbuf hlt hL
        rw [readCacheLoop_succ L ca k v hlt, hv1]
        exact ih v1 b1 hb1 (by omega)
      · exact ⟨v, readCacheLoop_exit L ca _ v hlt, b, hbuf⟩

theorem max_bounds_eq (JBOD_NUM_DISKS : Nat) (h : JBOD_NUM_DISKS * 65536 < 4294967296) :
    u32 ((JBOD_NUM_DISKS : Int) * (JBOD_DISK_SIZE : Int)) = JBOD_NUM_DISKS * 65536 := by
  have : ((JBOD_NUM_DISKS : Int) * (JBOD_DISK_SIZE : Int))
      = ((JBOD_NUM_DISKS * 65536 : Nat) : Int) := by
    simp [JBOD_DISK_SIZE]
  rw [this, u32_natCast _ h]

/-- The validation of `mdadm_read` lets a request through when the system is
mounted, the length is at most 1024, the range ends inside the capacity and
the buffer is present or the length is 0. -/
theorem mdadm_read_valid (JBOD_NUM_DISKS : Nat) (s : State) (start_addr read_len : Nat)
    (read_buf : Option Buf) (temp_buf : Buf) (hm : s.MOUNTED = true) (hL : read_len ≤ 1024)
    (hcap : start_addr + read_len ≤ JBOD_NUM_DISKS * 65536)
    (hnd : JBOD_NUM_DISKS * 65536 < 2147483648)
    (hbuf : read_buf.isSome = true ∨ read_len = 0) :
    mdadm_read JBOD_NUM_DISKS s start_addr read_len read_buf temp_buf =
      if cache_enabled s then
        match readCacheLoop read_len (start_addr : Int) read_len
            { s := s, i := 0, temp_buf := temp_buf, read_buf := read_buf } with
        | .error e => .error e
        | .ok v => .ok ((read_len : Int), v.s, v.read_buf)
      else
        match readLoop read_len read_len
            { s := s, current_address := (start_addr : Int),
              current_disk := ((start_addr / 65536 : Nat) : Int),
              current_block := ((start_addr % 65536 / 256 : Nat) : Int),
              offset := ((start_addr % 256 : Nat) : Int), read_bytes := 0,
              temp_buf := temp_buf, read_buf := read_buf } with
        | .error e => .error e
        | .ok v => .ok (v.read_bytes, v.s, v.read_buf) := by
  have h1024 : u32 1024 = 1024 := by decide
  have hb := max_bounds_eq JBOD_NUM_DISKS (by omega)
  have hlt : ¬ ((start_addr + read_len) % 4294967296 > JBOD_NUM_DISKS * 65536) := by omega
  have hv : (!s.MOUNTED || (read_len != 0 && (decide (read_len > u32 1024) || read_buf.isNone))
      || decide ((start_addr + read_len) % 4294967296
          > u32 ((JBOD_NUM_DISKS : Int) * (JBOD_DISK_SIZE : Int)))) = false := by
    rw [hb, h1024]
    rcases hbuf with h | h
    · cases read_buf with
      | none => simp at h
      | some b => simp [hm, hlt]; omega
    · subst h
      have hlt0 : start_addr % 4294967296 ≤ JBOD_NUM_DISKS * 65536 := by omega
      simp [hm, hlt0]
  unfold mdadm_read
  simp only [hv, Bool.false_eq_true, if_false]
  rw [i32_of_lt start_addr (by omega), i32_of_lt (start_addr / 65536) (by omega),
    i32_of_lt (start_addr % 65536 / 256) (by omega), i32_of_lt read_len (by omega)]
  rfl

/-! ## Return value of a successful read -/

/-- C5: on a mounted system, a read of at most 1024 bytes that ends inside
the capacity, with a present buffer or with length 0, returns exactly
`read_len`, with the cache enabled and with it disabled. With the cache
disabled every `memcpy` of the call copies to `read_buf + c` a positive
number `n` of bytes with `c + n ≤ read_len`: the running count `read_bytes`
never exceeds `read_len`. (`JBOD_NUM_DISKS * 65536` must fit an `int`.) -/
theorem read_returns_requested_length (JBOD_NUM_DISKS : Nat) (s : State)
    (start_addr read_len : Nat) (read_buf : Option Buf) (temp_buf : Buf)
    (hm : s.MOUNTED = true) (hL : read_len ≤ 1024)
    (hcap : start_addr + read_len ≤ JBOD_NUM_DISKS * 65536)
    (hnd : JBOD_NUM_DISKS * 65536 < 2147483648)
    (hbuf : read_buf.isSome = true ∨ read_len = 0) :
    ∃ s1 b1, mdadm_read JBOD_NUM_DISKS s start_addr read_len read_buf temp_buf
        = .ok ((read_len : Int), s1, b1) ∧
      (cache_enabled s = false → ∀ c t n, Event.memcpy c t n ∈ s1.trace →
        Event.memcpy c t n ∈ s.trace ∨ (0 ≤ c ∧ 0 < n ∧ c + n ≤ read_len)) := by
  rw [mdadm_read_valid JBOD_NUM_DISKS s start_addr read_len read_buf temp_buf hm hL hcap hnd hbuf]
  by_cases hz : read_len = 0
  · subst hz
    by_cases hc : cache_enabled s = true
    · rw [if_pos hc, readCacheLoop_exit 0 _ 0 _ (by simp)]
      exact ⟨s, read_buf, rfl, fun h => by rw [hc] at h; cases h⟩
    · rw [if_neg hc, readLoop_exit 0 0 _ (by simp)]
      exact ⟨s, read_buf, rfl, fun _ c t n h => Or.inl h⟩
  · have hsome : read_buf.isSome = true := by
      rcases hbuf with h | h
      · exact h
      · exact absurd h hz
    obtain ⟨b, rfl⟩ := Option.isSome_iff_exists.1 hsome
    by_cases hc : cache_enabled s = true
    · rw [if_pos hc]
      obtain ⟨v1, hrun, b1, hb1⟩ := readCacheLoop_total read_len (start_addr : Int) hL read_len
        { s := s, i := 0, temp_buf := temp_buf, read_buf := some b } b rfl (by simp)
      rw [hrun]
      exact ⟨v1.s, v1.read_buf, rfl, fun h => by rw [hc] at h; cases h⟩
    · rw [if_neg hc]
      obtain ⟨v1, hrun, hfin, _, _, htr⟩ := readLoop_total read_len hL read_len
        { s := s, current_address := (start_addr : Int),
          current_disk := ((start_addr / 65536 : Nat) : Int),
          current_block := ((start_addr % 65536 / 256 : Nat) : Int),
          offset := ((start_addr % 256 : Nat) : Int), read_bytes := 0,
          temp_buf := temp_buf, read_buf := some b } b rfl
        (by simp only []; omega) (by simp only []; omega) (le_refl _)
        (by simp only []; omega) (by simp only []; omega)
      rw [hrun]
      refine ⟨v1.s, v1.read_buf, by simp only [hfin], fun _ c t n h => ?_⟩
      rcases htr c t n h with h1 | h1
      · exact Or.inl h1
      · exact Or.inr ⟨h1.1, h1.2.1, h1.2.2.1⟩

/-- Witness of C5: `read(300, 700)` on 8 disks with the cache disabled. -/
theorem read_returns_requested_length_witness :
    ∃ s1 b1, mdadm_read 8 (mkState true false zeroJbod) 300 700 (some countBuf) (constBuf 0)
        = .ok (((700 : Nat) : Int), s1, b1) ∧
      (cache_enabled (mkState true false zeroJbod) = false → ∀ c t n,
        Event.memcpy c t n ∈ s1.trace →
        Event.memcpy c t n ∈ (mkState true false zeroJbod).trace ∨
          (0 ≤ c ∧ 0 < n ∧ c + n ≤ ((700 : Nat) : Int))) :=
  read_returns_requested_length 8 (mkState true false zeroJbod) 300 700 (some countBuf)
    (constBuf 0) rfl (by decide) (by decide) (by decide) (Or.inl rfl)

/-! ## One pass of the write loop -/

theorem writeCopied_bounds (a L w : Nat) (hw : w < L) :
    0 < writeCopied a L w ∧ (a + w) % 256 + writeCopied a L w ≤ 256 := by
  unfold writeCopied
  split_ifs <;> omega

theorem bytes_to_write_eq (a L w : Nat) (hw : w < L) :
    (if (((a + w) % 256 : Nat) : Int) ≠ 0 then 256 - (((a + w) % 256 : Nat) : Int)
      else (if (L : Int) - (w : Int) < 256 then (L : Int) - (w : Int) else 256))
      = ((writeCopied a L w : Nat) : Int) := by
  unfold writeCopied
  split_ifs <;> omega

theorem writeBody_ok (a L : Nat) (wb : Buf) (v : WriteVars) (w : Nat)
    (hv : v.written_bytes = (w : Int)) (hw : w < L) (hL : L ≤ 1024)
    (hcap : a + L ≤ 1048576) :
    writeBody a L wb v = .ok (writeNext a L wb v w) := by
  have hc := writeCopied_bounds a L w hw
  have hd : (a + w) / 65536 < 16 := by omega
  have hk : (a + w) % 65536 / 256 < 256 := by omega
  have hrem : i32 (usub32 L w) = (L : Int) - (w : Int) := by
    rw [usub32_of_le L w (by omega) (by omega), i32_of_lt _ (by omega)]
    omega
  unfold writeBody
  simp only [hv, u32_natCast w (by omega), hrem]
  rw [Nat.mod_eq_of_lt (by omega : a + w < 4294967296), i32_of_lt (a + w) (by omega)]
  have e1 : ((a + w : Nat) : Int).tdiv 65536 = (((a + w) / 65536 : Nat) : Int) :=
    tdiv_natCast (a + w) 65536
  have e2 : ((a + w : Nat) : Int).tmod 65536 = (((a + w) % 65536 : Nat) : Int) :=
    tmod_natCast (a + w) 65536
  have e3 : ((a + w : Nat) : Int).tmod 256 = (((a + w) % 256 : Nat) : Int) :=
    tmod_natCast (a + w) 256
  have e4 : (((a + w) % 65536 : Nat) : Int).tdiv 256 = (((a + w) % 65536 / 256 : Nat) : Int) :=
    tdiv_natCast _ 256
  rw [e1, e2, e3, e4, u32_natCast _ (by omega), u32_natCast _ (by omega),
    bytes_to_write_eq a L w hw, jbod_seek_disk _ _ hd, jbod_seek_block _ _ hk,
    copyIn_some _ _ _ _ _ _ (by omega) (by omega) (by omega) (by omega)]
  simp only [jbod_write_block, log_trace, log_jbod, log_cache, log_MOUNTED, writeNext,
    List.append_assoc, List.cons_append, List.nil_append, Int.toNat_ofNat, Nat.cast_add]

/-- The validation of `mdadm_write` lets a request through when the system
is mounted, the length is at most 1024, the range ends at or before 1048576
and the buffer is present. -/
theorem mdadm_write_valid (s : State) (start_addr write_len : Nat) (wb : Buf) (temp_buf : Buf)
    (hm : s.MOUNTED = true) (hL : write_len ≤ 1024) (hcap : start_addr + write_len ≤ 1048576) :
    mdadm_write s start_addr write_len (some wb) temp_buf =
      match writeLoop start_addr write_len wb write_len
          { s := s, written_bytes := 0, temp_buf := temp_buf } with
      | .error e => .error e
      | .ok v => .ok ((write_len : Int), v.s) := by
  have hlt : ¬ ((start_addr + write_len) % 4294967296 > 1048576) := by omega
  unfold mdadm_write
  have hv : (!s.MOUNTED || decide ((start_addr + write_len) % 4294967296 > 1048576)
      || decide (write_len > 1024)) = false := by
    simp [hm]; omega
  simp only [hv, Bool.false_eq_true, if_false, Option.isNone_some, Bool.and_false]
  rw [i32_of_lt write_len (by omega)]

theorem readNext_temp_buf (L : Nat) (v : ReadVars) (b : Buf) (d k : Nat) (hd : d < 16)
    (hk : k < 256) (hcd : v.current_disk = (d : Int)) (hcb : v.current_block = (k : Int)) :
    (readNext L v b).temp_buf = fun i => if i < 256 then v.s.jbod.mem d k i else v.temp_buf i := by
  unfold readNext
  simp only [hcd, hcb, u32_natCast d (by omega), u32_natCast k (by omega),
    jbod_seek_disk _ _ hd, jbod_seek_block _ _ hk, jbod_read_block]
  rfl

theorem readNext_read_buf_eq (L : Nat) (v : ReadVars) (b : Buf) :
    (readNext L v b).read_buf = some (memcpy b v.read_bytes.toNat (readNext L v b).temp_buf
      v.offset.toNat (readCopied L v).toNat) := rfl

theorem readNext_mem (L : Nat) (v : ReadVars) (b : Buf) :
    (readNext L v b).s.jbod.mem = v.s.jbod.mem := by
  simp only [readNext, jbod_read_block, jbod_operation_none_mem, log_jbod]

/-- A cache-disabled read that lies inside one block makes one pass and
copies the bytes of that block at the in-block offset of the request. -/
theorem read_single_block (JBOD_NUM_DISKS : Nat) (s : State) (a L : Nat) (rb tmp : Buf)
    (hnd : JBOD_NUM_DISKS ≤ 16) (hm : s.MOUNTED = true) (hc : s.cache.enabled = false)
    (hL : 1 ≤ L) (hblk : a % 256 + L ≤ 256) (hcap : a + L ≤ JBOD_NUM_DISKS * 65536) :
    ∃ s2 out, mdadm_read JBOD_NUM_DISKS s a L (some rb) tmp = .ok ((L : Int), s2, some out) ∧
      (∀ j, j < L → out j = s.jbod.mem (a / 65536) (a % 65536 / 256) (a % 256 + j)) ∧
      (∀ j, L ≤ j → out j = rb j) ∧ s2.jbod.mem = s.jbod.mem := by
  rw [mdadm_read_valid JBOD_NUM_DISKS s a L (some rb) tmp hm (by omega) hcap (by omega)
    (Or.inl rfl)]
  have hce : cache_enabled s = false := hc
  rw [hce]
  simp only [Bool.false_eq_true, if_false]
  obtain ⟨k, rfl⟩ : ∃ k, L = k + 1 := ⟨L - 1, by omega⟩
  generalize hv : ReadVars.mk s (a : Int) ((a / 65536 : Nat) : Int)
    ((a % 65536 / 256 : Nat) : Int) ((a % 256 : Nat) : Int) 0 tmp (some rb) = v
  have hoff : v.offset = ((a % 256 : Nat) : Int) := by rw [← hv]
  have hrb : v.read_bytes = 0 := by rw [← hv]
  have hs : v.s = s := by rw [← hv]
  have hcop : readCopied (k + 1) v = ((k + 1 : Nat) : Int) := by
    unfold readCopied
    rw [hoff, hrb]
    split_ifs <;> omega
  have hx : u32 v.read_bytes < k + 1 := by
    rw [hrb, show u32 0 = 0 from rfl]; omega
  rw [readLoop_succ (k + 1) k v hx,
    readBody_ok (k + 1) v rb (by rw [← hv]) (by omega) (by omega) (by omega) (by omega)
      (by omega)]
  have hdone : ¬ u32 (readNext (k + 1) v rb).read_bytes < k + 1 := by
    rw [readNext_read_bytes, hcop, hrb, Int.zero_add, u32_natCast _ (by omega)]
    omega
  simp only []
  rw [readLoop_exit (k + 1) k _ hdone]
  have htb := readNext_temp_buf (k + 1) v rb (a / 65536) (a % 65536 / 256) (by omega) (by omega)
    (by rw [← hv]) (by rw [← hv])
  refine ⟨(readNext (k + 1) v rb).s,
    memcpy rb v.read_bytes.toNat (readNext (k + 1) v rb).temp_buf v.offset.toNat
      (readCopied (k + 1) v).toNat, ?_, ?_, ?_, ?_⟩
  · simp only [readNext_read_buf_eq, readNext_read_bytes, hcop, hrb, Int.zero_add]
  · intro j hj
    simp only [memcpy, htb, hrb, hoff, hcop, hs, Int.toNat_ofNat, Int.toNat_zero]
    rw [if_pos (by omega), if_pos (by omega)]
    simp
  · intro j hj
    simp only [memcpy, hrb, hcop, Int.toNat_ofNat, Int.toNat_zero]
    rw [if_neg (by omega)]
  · rw [readNext_mem, hs]

/-! ## A write inside one block, then a read -/

/-- A write that lies inside one block makes one pass of the loop. -/
theorem write_single_block (s : State) (a L : Nat) (wb tmp : Buf) (hm : s.MOUNTED = true)
    (hL : 1 ≤ L) (hblk : a % 256 + L ≤ 256) (hcap : a + L ≤ 1048576) :
    mdadm_write s a L (some wb) tmp
      = .ok ((L : Int), (writeNext a L wb { s := s, written_bytes := 0, temp_buf := tmp } 0).s) := by
  rw [mdadm_write_valid s a L wb tmp hm (by omega) hcap]
  obtain ⟨k, rfl⟩ : ∃ k, L = k + 1 := ⟨L - 1, by omega⟩
  have hx : u32 (WriteVars.mk s 0 tmp).written_bytes < k + 1 := by
    show u32 0 < k + 1
    rw [show u32 0 = 0 from rfl]; omega
  rw [writeLoop_succ a (k + 1) wb k _ hx,
    writeBody_ok a (k + 1) wb _ 0 rfl (by omega) (by omega) hcap]
  have hc : k + 1 ≤ writeCopied a (k + 1) 0 := by
    unfold writeCopied
    split_ifs <;> omega
  have hc2 := writeCopied_bounds a (k + 1) 0 (by omega)
  have hdone : ¬ u32 (writeNext a (k + 1) wb (WriteVars.mk s 0 tmp) 0).written_bytes < k + 1 := by
    show ¬ u32 ((0 + writeCopied a (k + 1) 0 : Nat) : Int) < k + 1
    rw [u32_natCast _ (by omega)]
    omega
  simp only []
  rw [writeLoop_exit a (k + 1) wb k _ hdone]

/-- C6: on a mounted system with at most 16 disks and the cache disabled, a
write of `len ≥ 1` bytes that lies inside one block and inside the capacity
returns `len`; it sends select-disk for disk `start_addr / 65536`, then
select-block for block `(start_addr % 65536) / 256`, copies the caller's
bytes to `temp_buf` at index `start_addr % 256` and sends one write-block;
the device is left on that disk and block, whose bytes at positions
`start_addr % 256 + j`, `j < len`, are the caller's bytes `j`; and a following
read of the same range returns `len` and leaves the caller's `len` bytes in
`read_buf[0..len)`. -/
theorem single_block_write_then_read (JBOD_NUM_DISKS : Nat) (s : State) (start_addr len : Nat)
    (write_buf read_buf tmp tmp2 : Buf) (hnd : JBOD_NUM_DISKS ≤ 16) (hm : s.MOUNTED = true)
    (hc : s.cache.enabled = false) (hlen : 1 ≤ len) (hblk : start_addr % 256 + len ≤ 256)
    (hcap : start_addr + len ≤ JBOD_NUM_DISKS * 65536) :
    ∃ s1, mdadm_write s start_addr len (some write_buf) tmp = .ok ((len : Int), s1) ∧
      s1.trace = s.trace ++
        [Event.jbod (op (start_addr / 65536) 0 JBOD_SEEK_TO_DISK),
         Event.jbod (op 0 (start_addr % 65536 / 256) JBOD_SEEK_TO_BLOCK),
         Event.memcpy 0 ((start_addr % 256 : Nat) : Int)
           ((writeCopied start_addr len 0 : Nat) : Int),
         Event.jbod (op 0 0 JBOD_WRITE_BLOCK)] ∧
      s1.jbod.disk = start_addr / 65536 ∧ s1.jbod.block = start_addr % 65536 / 256 ∧
      (∀ j, j < len →
        s1.jbod.mem (start_addr / 65536) (start_addr % 65536 / 256) (start_addr % 256 + j)
          = write_buf j) ∧
      ∃ s2 out, mdadm_read JBOD_NUM_DISKS s1 start_addr len (some read_buf) tmp2
          = .ok ((len : Int), s2, some out) ∧
        ∀ j, j < len → out j = write_buf j := by
  have hc2 := writeCopied_bounds start_addr len 0 (by omega)
  have hcl : len ≤ writeCopied start_addr len 0 := by
    unfold writeCopied
    split_ifs <;> omega
  have hmem : ∀ j, j < len →
      (writeNext start_addr len write_buf { s := s, written_bytes := 0, temp_buf := tmp } 0).s.jbod.mem
        (start_addr / 65536) (start_addr % 65536 / 256) (start_addr % 256 + j) = write_buf j := by
    intro j hj
    simp only [writeNext, memcpy, Nat.add_zero]
    rw [if_pos ⟨trivial, trivial, by omega⟩, if_pos ⟨by omega, by omega⟩]
    congr 1
    omega
  refine ⟨_, write_single_block s start_addr len write_buf tmp hm hlen hblk (by omega),
    rfl, rfl, rfl, hmem, ?_⟩
  obtain ⟨s2, out, hrun, hout, _, _⟩ := read_single_block JBOD_NUM_DISKS
    (writeNext start_addr len write_buf { s := s, written_bytes := 0, temp_buf := tmp } 0).s
    start_addr len read_buf tmp2 hnd hm hc hlen hblk hcap
  exact ⟨s2, out, hrun, fun j hj => by rw [hout j hj, hmem j hj]⟩

/-- Witness of C6: `write(300, 10, [1..10])` on 8 disks selects disk 0 and
block 1, copies at offset 44, and `read(300, 10)` returns the ten bytes. -/
theorem single_block_write_then_read_witness :
    ∃ s1, mdadm_write (mkState true false zeroJbod) 300 10 (some countBuf) (constBuf 0)
        = .ok (10, s1) ∧
      s1.trace = [Event.jbod (op 0 0 JBOD_SEEK_TO_DISK), Event.jbod (op 0 1 JBOD_SEEK_TO_BLOCK),
        Event.memcpy 0 44 212, Event.jbod (op 0 0 JBOD_WRITE_BLOCK)] ∧
      s1.jbod.disk = 0 ∧ s1.jbod.block = 1 ∧
      (∀ j, j < 10 → s1.jbod.mem 0 1 (44 + j) = countBuf j) ∧
      ∃ s2 out, mdadm_read 8 s1 300 10 (some (constBuf 0)) (constBuf 0) = .ok (10, s2, some out) ∧
        ∀ j, j < 10 → out j = countBuf j :=
  single_block_write_then_read 8 (mkState true false zeroJbod) 300 10 countBuf (constBuf 0)
    (constBuf 0) (constBuf 0) (by decide) rfl rfl (by decide) (by decide) (by decide)

/-! ## Where the code departs from its description -/

/-- C1: with the cache disabled, 8 disks and an all-zero device,
`write(0, 768)` of bytes that are all 1 returns 768 and stores them in blocks
0, 1 and 2 of disk 0, but the following `read(0, 768)` sends read-block for
blocks 0, 1 and 3: it returns 768 with `read_buf[511] = 1` and
`read_buf[512] = 0`, a byte of block 3 instead of the byte written. -/
theorem round_trip_fails_on_three_blocks :
    writeRet (mdadm_write (mkState true false zeroJbod) 0 768 (some (constBuf 1)) (constBuf 0))
        = some 768 ∧
      (writeStateD (mdadm_write (mkState true false zeroJbod) 0 768 (some (constBuf 1))
          (constBuf 0)) (mkState true false zeroJbod)).jbod.mem 0 2 0 = 1 ∧
      readRet (mdadm_read 8
          (writeStateD (mdadm_write (mkState true false zeroJbod) 0 768 (some (constBuf 1))
            (constBuf 0)) (mkState true false zeroJbod))
          0 768 (some (constBuf 9)) (constBuf 0)) = some 768 ∧
      readByte (mdadm_read 8
          (writeStateD (mdadm_write (mkState true false zeroJbod) 0 768 (some (constBuf 1))
            (constBuf 0)) (mkState true false zeroJbod))
          0 768 (some (constBuf 9)) (constBuf 0)) 511 = some 1 ∧
      readByte (mdadm_read 8
          (writeStateD (mdadm_write (mkState true false zeroJbod) 0 768 (some (constBuf 1))
            (constBuf 0)) (mkState true false zeroJbod))
          0 768 (some (constBuf 9)) (constBuf 0)) 512 = some 0 ∧
      (readState (mdadm_read 8 (mkState true false zeroJbod) 0 768 (some (constBuf 9))
          (constBuf 0))).map (fun s => s.trace)
        = some [Event.jbod (op 0 0 JBOD_SEEK_TO_DISK), Event.jbod (op 0 0 JBOD_SEEK_TO_BLOCK),
                Event.jbod (op 0 0 JBOD_READ_BLOCK), Event.memcpy 0 0 256,
                Event.jbod (op 0 0 JBOD_SEEK_TO_DISK), Event.jbod (op 0 1 JBOD_SEEK_TO_BLOCK),
                Event.jbod (op 0 0 JBOD_SEEK_TO_DISK), Event.jbod (op 0 1 JBOD_SEEK_TO_BLOCK),
                Event.jbod (op 0 0 JBOD_READ_BLOCK), Event.memcpy 256 0 256,
                Event.jbod (op 0 0 JBOD_SEEK_TO_DISK), Event.jbod (op 0 3 JBOD_SEEK_TO_BLOCK),
                Event.jbod (op 0 0 JBOD_SEEK_TO_DISK), Event.jbod (op 0 3 JBOD_SEEK_TO_BLOCK),
                Event.jbod (op 0 0 JBOD_READ_BLOCK), Event.memcpy 512 0 256,
                Event.jbod (op 0 0 JBOD_SEEK_TO_DISK),
                Event.jbod (op 0 6 JBOD_SEEK_TO_BLOCK)] := by
  decide

/-- C2: on a device whose byte at in-block index `i` is `i`, with 8 disks and
an empty cache, `read(300, 10)` with the cache enabled returns 10 and leaves
`read_buf[0] = 0` and `read_buf[9] = 9`, the first bytes of block 1, while
with the cache disabled it returns 10 and leaves `read_buf[0] = 44` and
`read_buf[9] = 53`, the bytes at linear addresses 300 and 309. -/
theorem cache_read_ignores_offset :
    readRet (mdadm_read 8 (mkState true true rampJbod) 300 10 (some (constBuf 7)) (constBuf 0))
        = some 10 ∧
      readByte (mdadm_read 8 (mkState true true rampJbod) 300 10 (some (constBuf 7))
        (constBuf 0)) 0 = some 0 ∧
      readByte (mdadm_read 8 (mkState true true rampJbod) 300 10 (some (constBuf 7))
        (constBuf 0)) 9 = some 9 ∧
      readRet (mdadm_read 8 (mkState true false rampJbod) 300 10 (some (constBuf 7))
        (constBuf 0)) = some 10 ∧
      readByte (mdadm_read 8 (mkState true false rampJbod) 300 10 (some (constBuf 7))
        (constBuf 0)) 0 = some 44 ∧
      readByte (mdadm_read 8 (mkState true false rampJbod) 300 10 (some (constBuf 7))
        (constBuf 0)) 9 = some 53 ∧
      rampJbod.mem (300 / 65536) (300 % 65536 / 256) (300 % 256) = 44 := by
  decide

/-- C3: with 8 disks, `read(524280, 100)` returns -1, but
`read(4294967295, 1)`, whose range ends past the capacity, is not rejected:
the 32-bit sum `start_addr + read_len` is 0. With the cache enabled the call
returns 1 after a cache lookup, one read-block and a cache insert; with the
cache disabled the first pass copies from `temp_buf - 1`. -/
theorem read_accepts_wrapped_range :
    readRet (mdadm_read 8 (mkState true true zeroJbod) 524280 100 (some (constBuf 7))
        (constBuf 0)) = some (-1) ∧
      524288 < 4294967295 + 1 ∧
      readRet (mdadm_read 8 (mkState true true zeroJbod) 4294967295 1 (some (constBuf 7))
        (constBuf 0)) = some 1 ∧
      (readState (mdadm_read 8 (mkState true true zeroJbod) 4294967295 1 (some (constBuf 7))
        (constBuf 0))).map (fun s => s.trace)
        = some [Event.lookup 0 0 false, Event.jbod (op 0 0 JBOD_SEEK_TO_DISK),
                Event.jbod (op 0 0 JBOD_SEEK_TO_BLOCK), Event.jbod (op 0 0 JBOD_READ_BLOCK),
                Event.insert 0 0, Event.memcpy 0 0 1] ∧
      (match mdadm_read 8 (mkState true false zeroJbod) 4294967295 1 (some (constBuf 7))
          (constBuf 0) with
        | .error e => some e
        | .ok _ => none) = some Fault.tempBufRange := by
  decide

/-- C4: with 8 disks (capacity 524288), `read(524280, 100)` returns -1 but
`write(524280, 100)` returns 100: `mdadm_write` compares the end of the range
with the constant 1048576 and goes on to select disk 7, block 255 and then
disk 8, block 0. -/
theorem write_bound_is_not_the_capacity :
    readRet (mdadm_read 8 (mkState true false zeroJbod) 524280 100 (some (constBuf 7))
        (constBuf 0)) = some (-1) ∧
      writeRet (mdadm_write (mkState true false zeroJbod) 524280 100 (some countBuf)
        (constBuf 0)) = some 100 ∧
      (writeStateD (mdadm_write (mkState true false zeroJbod) 524280 100 (some countBuf)
        (constBuf 0)) (mkState true false zeroJbod)).trace
        = [Event.jbod (op 7 0 JBOD_SEEK_TO_DISK), Event.jbod (op 0 255 JBOD_SEEK_TO_BLOCK),
           Event.memcpy 0 248 8, Event.jbod (op 0 0 JBOD_WRITE_BLOCK),
           Event.jbod (op 8 0 JBOD_SEEK_TO_DISK), Event.jbod (op 0 0 JBOD_SEEK_TO_BLOCK),
           Event.memcpy 8 0 92, Event.jbod (op 0 0 JBOD_WRITE_BLOCK)] := by
  decide

/-! ## Validation -/

/-- A read whose range ends past the capacity, the 32-bit sum not wrapping,
returns -1 and changes nothing. -/
theorem read_rejects_beyond_capacity (JBOD_NUM_DISKS : Nat) (s : State) (start_addr len : Nat)
    (buf : Option Buf) (temp_buf : Buf) (hnd : JBOD_NUM_DISKS * 65536 < 4294967296)
    (hsum : start_addr + len < 4294967296) (hout : JBOD_NUM_DISKS * 65536 < start_addr + len) :
    mdadm_read JBOD_NUM_DISKS s start_addr len buf temp_buf = .ok (-1, s, buf) := by
  have hb := max_bounds_eq JBOD_NUM_DISKS hnd
  have hgt : (start_addr + len) % 4294967296 > JBOD_NUM_DISKS * 65536 := by omega
  unfold mdadm_read
  simp only [hb]
  simp [hgt]

/-- A write whose range ends past 1048576, the 32-bit sum not wrapping,
returns -1 and changes nothing. -/
theorem write_rejects_beyond_1048576 (s : State) (start_addr len : Nat) (buf : Option Buf)
    (temp_buf : Buf) (hsum : start_addr + len < 4294967296) (hout : 1048576 < start_addr + len) :
    mdadm_write s start_addr len buf temp_buf = .ok (-1, s) := by
  have hgt : (start_addr + len) % 4294967296 > 1048576 := by omega
  unfold mdadm_write
  simp [hgt]

/-- C8: a transfer longer than 1024 bytes is rejected by `mdadm_read` and by
`mdadm_write` with -1, whatever the start address, the buffer (present or
NULL), the mount flag and the rest of the state; nothing is changed. -/
theorem oversized_transfer_rejected (JBOD_NUM_DISKS : Nat) (s : State) (start_addr len : Nat)
    (buf : Option Buf) (temp_buf : Buf) (hlen : 1024 < len) :
    mdadm_read JBOD_NUM_DISKS s start_addr len buf temp_buf = .ok (-1, s, buf) ∧
      mdadm_write s start_addr len buf temp_buf = .ok (-1, s) := by
  have h1024 : u32 1024 = 1024 := by decide
  have hne : len ≠ 0 := by omega
  constructor
  · unfold mdadm_read
    simp [h1024, hlen, hne]
  · unfold mdadm_write
    simp [hlen]

/-- Witness of C8: `read(0, 2000)` and `write(0, 2000)` on an unmounted
system with a present buffer. -/
theorem oversized_transfer_rejected_witness :
    1024 < 2000 ∧
      mdadm_read 8 (mkState false false zeroJbod) 0 2000 (some countBuf) (constBuf 0)
        = .ok (-1, mkState false false zeroJbod, some countBuf) ∧
      mdadm_write (mkState false false zeroJbod) 0 2000 (some countBuf) (constBuf 0)
        = .ok (-1, mkState false false zeroJbod) :=
  ⟨by decide,
    oversized_transfer_rejected 8 (mkState false false zeroJbod) 0 2000 (some countBuf)
      (constBuf 0) (by decide)⟩

/-- C9: on a mounted system with at most 16 disks, a zero-length read and a
zero-length write with a NULL buffer at any start address up to the capacity
return 0 and leave the whole state (device, cache, trace, flag) as it was, in
either cache mode. -/
theorem zero_length_succeeds (JBOD_NUM_DISKS : Nat) (s : State) (start_addr : Nat)
    (temp_buf : Buf) (hnd : JBOD_NUM_DISKS ≤ 16) (hm : s.MOUNTED = true)
    (hstart : start_addr ≤ JBOD_NUM_DISKS * 65536) :
    mdadm_read JBOD_NUM_DISKS s start_addr 0 none temp_buf = .ok (0, s, none) ∧
      mdadm_write s start_addr 0 none temp_buf = .ok (0, s) := by
  have hb : u32 ((JBOD_NUM_DISKS : Int) * (JBOD_DISK_SIZE : Int)) = JBOD_NUM_DISKS * 65536 := by
    have : ((JBOD_NUM_DISKS : Int) * (JBOD_DISK_SIZE : Int))
        = ((JBOD_NUM_DISKS * 65536 : Nat) : Int) := by
      simp [JBOD_DISK_SIZE]
    rw [this, u32_natCast _ (by omega)]
  have hi : i32 0 = 0 := by decide
  constructor
  · unfold mdadm_read
    have hlt : ¬ (start_addr % 4294967296 > JBOD_NUM_DISKS * 65536) := by omega
    simp only [hm, hb, Nat.add_zero]
    by_cases hc : cache_enabled s = true
    · simp [hc, hlt, readCacheLoop_exit, hi]
    · simp [hc, hlt, readLoop_exit, u32]
  · unfold mdadm_write
    have hlt : ¬ (start_addr % 4294967296 > 1048576) := by omega
    simp [hm, hlt]

/-- Witness of C9: `read(0, 0, NULL)` and `write(0, 0, NULL)` with 8 disks. -/
theorem zero_length_succeeds_witness :
    mdadm_read 8 (mkState true false zeroJbod) 0 0 none (constBuf 0)
        = .ok (0, mkState true false zeroJbod, none) ∧
      mdadm_write (mkState true false zeroJbod) 0 0 none (constBuf 0)
        = .ok (0, mkState true false zeroJbod) :=
  zero_length_succeeds 8 (mkState true false zeroJbod) 0 (constBuf 0) (by decide) rfl
    (by decide)

/-- C10: `mdadm_mount` on an unmounted system returns 1, sets the flag and
sends one directive to the device; on a mounted system it returns -1 and
changes nothing. `mdadm_unmount` on a mounted system returns 1, clears the
flag and sends one directive; on an unmounted system it returns -1 and
changes nothing. From the unmounted state, mount then unmount both succeed, a
second mount fails, and a second unmount fails. -/
theorem mount_state_machine (j : Jbod) (c : Cache) (t : List Event) :
    (mdadm_mount ⟨false, j, c, t⟩).1 = 1 ∧
    (mdadm_mount ⟨false, j, c, t⟩).2.MOUNTED = true ∧
    (mdadm_mount ⟨false, j, c, t⟩).2.trace = t ++ [Event.jbod JBOD_MOUNT] ∧
    mdadm_mount ⟨true, j, c, t⟩ = (-1, ⟨true, j, c, t⟩) ∧
    (mdadm_unmount ⟨true, j, c, t⟩).1 = 1 ∧
    (mdadm_unmount ⟨true, j, c, t⟩).2.MOUNTED = false ∧
    (mdadm_unmount ⟨true, j, c, t⟩).2.trace = t ++ [Event.jbod JBOD_UNMOUNT] ∧
    mdadm_unmount ⟨false, j, c, t⟩ = (-1, ⟨false, j, c, t⟩) ∧
    (mdadm_unmount (mdadm_mount ⟨false, j, c, t⟩).2).1 = 1 ∧
    (mdadm_mount (mdadm_mount ⟨false, j, c, t⟩).2).1 = -1 ∧
    (mdadm_unmount (mdadm_unmount (mdadm_mount ⟨false, j, c, t⟩).2).2).1 = -1 := by
  refine ⟨rfl, rfl, rfl, rfl, rfl, rfl, rfl, rfl, rfl, rfl, rfl⟩

/-- C7: when `mdadm_read` or `mdadm_write` returns -1, the state afterwards is
the state before (same device, cache, mount flag and trace, so no device
operation and no cache call was issued) and the memory behind the caller's
buffer is unchanged. -/
theorem failure_is_all_or_nothing (JBOD_NUM_DISKS : Nat) (s : State) (start_addr len : Nat)
    (buf : Option Buf) (temp_buf : Buf) (s1 : State) (buf1 : Option Buf) :
    (mdadm_read JBOD_NUM_DISKS s start_addr len buf temp_buf = .ok (-1, s1, buf1) →
        s1 = s ∧ buf1 = buf) ∧
      (mdadm_write s start_addr len buf temp_buf = .ok (-1, s1) → s1 = s) := by
  have h1024 : u32 1024 = 1024 := by decide
  constructor
  · intro h
    unfold mdadm_read at h
    simp only [] at h
    split_ifs at h with hv hc
    · cases h
      exact ⟨rfl, rfl⟩
    · exfalso
      split at h
      · exact absurd h (by simp)
      · simp only [Except.ok.injEq, Prod.mk.injEq] at h
        have hl : len ≤ 1024 := by
          simp only [Bool.or_eq_true, Bool.and_eq_true, decide_eq_true_eq, h1024] at hv
          by_contra hcon
          exact hv (Or.inl (Or.inr ⟨by simp; omega, Or.inl (by omega)⟩))
        have := i32_nonneg_of_le len hl
        omega
    · exfalso
      split at h
      · exact absurd h (by simp)
      · rename_i v hl
        simp only [Except.ok.injEq, Prod.mk.injEq] at h
        have := readLoop_ret_nonneg len len _ v hl (le_refl _)
        omega
  · intro h
    unfold mdadm_write at h
    split_ifs at h with hv h0 h1
    · cases h; rfl
    · cases h
    · cases h; rfl
    · exfalso
      split at h
      · exact absurd h (by simp)
      · split at h
        · exact absurd h (by simp)
        · simp only [Except.ok.injEq, Prod.mk.injEq] at h
          have hl : len ≤ 1024 := by
            simp only [Bool.or_eq_true, decide_eq_true_eq] at hv
            omega
          have := i32_nonneg_of_le len hl
          omega

/-- Witness of C7: a read and a write of 4 bytes on an unmounted system
return -1. -/
theorem failure_is_all_or_nothing_witness :
    (mdadm_read 8 (mkState false false zeroJbod) 0 4 (some countBuf) (constBuf 0)
        = .ok (-1, mkState false false zeroJbod, some countBuf) ∧
      mdadm_write (mkState false false zeroJbod) 0 4 (some countBuf) (constBuf 0)
        = .ok (-1, mkState false false zeroJbod)) ∧
    (mkState false false zeroJbod = mkState false false zeroJbod ∧
        some countBuf = some countBuf) ∧
      mkState false false zeroJbod = mkState false false zeroJbod :=
  ⟨⟨rfl, rfl⟩,
    (failure_is_all_or_nothing 8 (mkState false false zeroJbod) 0 4 (some countBuf)
      (constBuf 0) (mkState false false zeroJbod) (some countBuf)).1 rfl,
    (failure_is_all_or_nothing 8 (mkState false false zeroJbod) 0 4 (some countBuf)
      (constBuf 0) (mkState false false zeroJbod) (some countBuf)).2 rfl⟩

/-! ## The write loop as a sequence of passes -/

theorem writePlan_exit (a L fuel w : Nat) (h : ¬ w < L) : writePlan a L fuel w = [] := by
  cases fuel <;> simp [writePlan, h]

theorem writePlan_succ (a L fuel w : Nat) (h : w < L) :
    writePlan a L (fuel + 1) w =
      { disk := (a + w) / 65536, block := (a + w) % 65536 / 256, offset := (a + w) % 256,
        written_bytes := w, bytes_to_write := writeCopied a L w }
        :: writePlan a L fuel (w + writeCopied a L w) := by
  simp [writePlan, h]

theorem writeNext_trace (a L : Nat) (wb : Buf) (v : WriteVars) (w : Nat) :
    (writeNext a L wb v w).s.trace = v.s.trace ++
      (WritePass.mk ((a + w) / 65536) ((a + w) % 65536 / 256) ((a + w) % 256) w
        (writeCopied a L w)).events := rfl

/-- On a valid request the write loop returns, its collaborator calls and
copies are those of `writePlan`, it leaves the mount flag and the cache alone
and changes no block that holds no address of the range. -/
theorem writeLoop_spec (a L : Nat) (wb : Buf) (hL : L ≤ 1024) (hcap : a + L ≤ 1048576) :
    ∀ (fuel : Nat) (v : WriteVars) (w : Nat), v.written_bytes = (w : Int) → L - w ≤ fuel →
      w ≤ L + 256 →
      ∃ v1, writeLoop a L wb fuel v = .ok v1 ∧
        v1.s.trace = v.s.trace ++ writeEvents (writePlan a L fuel w) ∧
        v1.s.MOUNTED = v.s.MOUNTED ∧ v1.s.cache = v.s.cache ∧
        ∀ d k, (∀ x, a ≤ x → x < a + L → ¬ (x / 65536 = d ∧ x % 65536 / 256 = k)) →
          ∀ i, v1.s.jbod.mem d k i = v.s.jbod.mem d k i := by
  intro fuel
  induction fuel with
  | zero =>
      intro v w hv hfuel hw
      have hx : ¬ u32 v.written_bytes < L := by
        rw [hv, u32_natCast w (by omega)]; omega
      exact ⟨v, writeLoop_exit a L wb 0 v hx, by simp [writePlan, writeEvents], rfl, rfl,
        fun _ _ _ _ => rfl⟩
  | succ n ih =>
      intro v w hv hfuel hw
      by_cases hlt : w < L
      · have hx : u32 v.written_bytes < L := by
          rw [hv, u32_natCast w (by omega)]; exact hlt
        have hc := writeCopied_bounds a L w hlt
        rw [writeLoop_succ a L wb n v hx, writeBody_ok a L wb v w hv hlt hL hcap]
        obtain ⟨v1, hrun, htr, hm, hca, hfr⟩ := ih (writeNext a L wb v w)
          (w + writeCopied a L w) rfl (by omega) (by omega)
        refine ⟨v1, hrun, ?_, hm, hca, ?_⟩
        · rw [htr, writeNext_trace, writePlan_succ a L n w hlt, List.append_assoc]
          rfl
        · intro d k hdk i
          rw [hfr d k hdk i]
          show (if d = (a + w) / 65536 ∧ k = (a + w) % 65536 / 256 ∧ i < 256 then _ else _) = _
          rw [if_neg]
          intro hcon
          exact hdk (a + w) (by omega) (by omega) ⟨hcon.1.symm, hcon.2.1.symm⟩
      · have hx : ¬ u32 v.written_bytes < L := by
          rw [hv, u32_natCast w (by omega)]; exact hlt
        exact ⟨v, writeLoop_exit a L wb _ v hx, by simp [writePlan_exit a L _ w hlt, writeEvents],
          rfl, rfl, fun _ _ _ _ => rfl⟩

/-- On a valid write with a present buffer `mdadm_write` returns `write_len`;
its trace, mount flag, cache and device memory are as `writeLoop_spec` says. -/
theorem mdadm_write_spec (s : State) (a L : Nat) (wb tmp : Buf) (hm : s.MOUNTED = true)
    (hL : L ≤ 1024) (hcap : a + L ≤ 1048576) :
    ∃ s1, mdadm_write s a L (some wb) tmp = .ok ((L : Int), s1) ∧
      s1.trace = s.trace ++ writeEvents (writePlan a L L 0) ∧
      s1.MOUNTED = s.MOUNTED ∧ s1.cache = s.cache ∧
      ∀ d k, (∀ x, a ≤ x → x < a + L → ¬ (x / 65536 = d ∧ x % 65536 / 256 = k)) →
        ∀ i, s1.jbod.mem d k i = s.jbod.mem d k i := by
  rw [mdadm_write_valid s a L wb tmp hm hL hcap]
  obtain ⟨v1, hrun, htr, hmt, hca, hfr⟩ := writeLoop_spec a L wb hL hcap L
    (WriteVars.mk s 0 tmp) 0 rfl (by omega) (by omega)
  rw [hrun]
  exact ⟨v1.s, rfl, htr, hmt, hca, hfr⟩

/-! ## The blocks, sizes and number of the write passes -/

theorem writePlan_pass_bounds (a L : Nat) :
    ∀ (fuel w : Nat) (p : WritePass), p ∈ writePlan a L fuel w →
      1 ≤ p.bytes_to_write ∧ p.bytes_to_write ≤ 256 ∧ p.offset + p.bytes_to_write ≤ 256 ∧
        w ≤ p.written_bytes ∧ p.written_bytes < L ∧
        p.disk = (a + p.written_bytes) / 65536 ∧ p.block = (a + p.written_bytes) % 65536 / 256 ∧
        p.offset = (a + p.written_bytes) % 256 := by
  intro fuel
  induction fuel with
  | zero => intro w p hp; simp [writePlan] at hp
  | succ n ih =>
      intro w p hp
      by_cases hlt : w < L
      · rw [writePlan_succ a L n w hlt, List.mem_cons] at hp
        have hc := writeCopied_bounds a L w hlt
        rcases hp with rfl | hp
        · exact ⟨by simp only []; omega, by simp only []; omega, by simp only []; omega,
            le_refl _, hlt, rfl, rfl, rfl⟩
        · have h := ih _ p hp
          exact ⟨h.1, h.2.1, h.2.2.1, by omega, h.2.2.2.2.1, h.2.2.2.2.2⟩
      · rw [writePlan_exit a L _ w hlt] at hp
        simp at hp

theorem blockAt_of_addr (x : Nat) : (x / 65536, x % 65536 / 256) = blockAt (x / 256) := by
  unfold blockAt
  congr 1 <;> omega

theorem writePlan_blocks_aligned (a L : Nat) :
    ∀ (fuel w : Nat), (a + w) % 256 = 0 → L - w ≤ fuel →
      (writePlan a L fuel w).map WritePass.target
        = (List.range' ((a + w) / 256) ((L - w + 255) / 256)).map blockAt := by
  intro fuel
  induction fuel with
  | zero =>
      intro w _ hfuel
      have h0 : (L - w + 255) / 256 = 0 := by omega
      simp [writePlan, h0]
  | succ n ih =>
      intro w hal hfuel
      by_cases hlt : w < L
      · rw [writePlan_succ a L n w hlt]
        have hcv : writeCopied a L w = if L - w < 256 then L - w else 256 := by
          unfold writeCopied
          rw [if_neg (by omega)]
        by_cases hsm : L - w < 256
        · rw [hcv, if_pos hsm, writePlan_exit a L n _ (by omega)]
          have h1 : (L - w + 255) / 256 = 1 := by omega
          rw [h1]
          simp [WritePass.target, blockAt_of_addr]
        · rw [hcv, if_neg hsm]
          obtain ⟨k, hk⟩ : ∃ k, (L - w + 255) / 256 = k + 1 := ⟨(L - w + 255) / 256 - 1, by omega⟩
          have hk2 : (L - (w + 256) + 255) / 256 = k := by omega
          have hg : (a + (w + 256)) / 256 = (a + w) / 256 + 1 := by omega
          rw [hk, List.range'_succ, List.map_cons, List.map_cons,
            ih (w + 256) (by omega) (by omega), hk2, hg]
          simp [WritePass.target, blockAt_of_addr]
      · have h0 : (L - w + 255) / 256 = 0 := by omega
        rw [writePlan_exit a L _ w hlt, h0]
        simp

/-- The write passes select the blocks with global index `start_addr / 256`
onwards, one after the other, `⌈(start_addr % 256 + write_len) / 256⌉` of
them. -/
theorem writePlan_blocks (a L fuel : Nat) (hL : 1 ≤ L) (hfuel : L ≤ fuel) :
    (writePlan a L fuel 0).map WritePass.target
      = (List.range' (a / 256) ((a % 256 + L + 255) / 256)).map blockAt := by
  by_cases hal : a % 256 = 0
  · have h := writePlan_blocks_aligned a L fuel 0 (by omega) (by omega)
    rw [h]
    have e1 : (a + 0) / 256 = a / 256 := by omega
    have e2 : (L - 0 + 255) / 256 = (a % 256 + L + 255) / 256 := by omega
    rw [e1, e2]
  · obtain ⟨n, rfl⟩ : ∃ n, fuel = n + 1 := ⟨fuel - 1, by omega⟩
    rw [writePlan_succ a L n 0 (by omega)]
    have hcv : writeCopied a L 0 = 256 - a % 256 := by
      unfold writeCopied
      rw [if_pos (by omega)]
      omega
    rw [hcv, List.map_cons]
    by_cases hin : a % 256 + L ≤ 256
    · rw [writePlan_exit a L n _ (by omega)]
      have h1 : (a % 256 + L + 255) / 256 = 1 := by omega
      rw [h1]
      simp [WritePass.target, blockAt_of_addr]
    · obtain ⟨k, hk⟩ : ∃ k, (a % 256 + L + 255) / 256 = k + 1 :=
        ⟨(a % 256 + L + 255) / 256 - 1, by omega⟩
      have hk2 : (L - (0 + (256 - a % 256)) + 255) / 256 = k := by omega
      have hg : (a + (0 + (256 - a % 256))) / 256 = a / 256 + 1 := by omega
      rw [writePlan_blocks_aligned a L n (0 + (256 - a % 256)) (by omega) (by omega), hk2, hg,
        hk, List.range'_succ, List.map_cons]
      simp [WritePass.target, blockAt_of_addr]

theorem writePlan_length (a L fuel : Nat) (hL : 1 ≤ L) (hfuel : L ≤ fuel) :
    (writePlan a L fuel 0).length = (a % 256 + L + 255) / 256 := by
  have h := congrArg List.length (writePlan_blocks a L fuel hL hfuel)
  simpa using h

theorem writePlan_tiles (a L : Nat) :
    ∀ (fuel w : Nat), L - w ≤ fuel →
      ∃ W, L ≤ W ∧ w ≤ W ∧ tiles w W ((writePlan a L fuel w).map WritePass.piece) := by
  intro fuel
  induction fuel with
  | zero => intro w h; exact ⟨w, by omega, le_refl _, by simp [writePlan, tiles]⟩
  | succ n ih =>
      intro w h
      by_cases hlt : w < L
      · have hc := writeCopied_bounds a L w hlt
        obtain ⟨W, hW, hwW, ht⟩ := ih (w + writeCopied a L w) (by omega)
        refine ⟨W, hW, by omega, ?_⟩
        rw [writePlan_succ a L n w hlt, List.map_cons]
        exact ⟨rfl, ht⟩
      · exact ⟨w, by omega, le_refl _, by simp [writePlan_exit a L _ w hlt, tiles]⟩

/-! ## Claims about `mdadm_write` -/

/-- C17: on a mounted system with at most 16 disks, a write of
`1 ≤ len ≤ 1024` bytes that ends inside the capacity, with a present buffer,
returns `len`; it makes one pass (select-disk, select-block, copy,
write-block) per block, and the blocks of the passes are exactly those with
global index `⌊start_addr / 256⌋ .. ⌊(start_addr + len - 1) / 256⌋` in
increasing order (disk `g / 256`, block `g % 256`), across disk boundaries
too; every selected disk is `< JBOD_NUM_DISKS`, every selected block is
`< 256`, and the command words carry exactly these numbers. -/
theorem write_visits_blocks_in_order (JBOD_NUM_DISKS : Nat) (s : State)
    (start_addr len : Nat) (write_buf tmp : Buf) (hnd : JBOD_NUM_DISKS ≤ 16)
    (hm : s.MOUNTED = true) (hlen1 : 1 ≤ len) (hlen : len ≤ 1024)
    (hcap : start_addr + len ≤ JBOD_NUM_DISKS * 65536) :
    ∃ s1, mdadm_write s start_addr len (some write_buf) tmp = .ok ((len : Int), s1) ∧
      s1.trace = s.trace ++ writeEvents (writePlan start_addr len len 0) ∧
      (writePlan start_addr len len 0).map WritePass.target
        = (List.range' (start_addr / 256)
            ((start_addr + len - 1) / 256 - start_addr / 256 + 1)).map blockAt ∧
      ∀ p ∈ writePlan start_addr len len 0, p.disk < JBOD_NUM_DISKS ∧ p.block < 256 ∧
        (op p.disk 0 JBOD_SEEK_TO_DISK >>> 28) % 16 = p.disk ∧
        (op 0 p.block JBOD_SEEK_TO_BLOCK >>> 20) % 256 = p.block := by
  obtain ⟨s1, hrun, htr, _, _, _⟩ := mdadm_write_spec s start_addr len write_buf tmp hm hlen
    (by omega)
  refine ⟨s1, hrun, htr, ?_, ?_⟩
  · rw [writePlan_blocks start_addr len len hlen1 (le_refl _)]
    have e : (start_addr % 256 + len + 255) / 256
        = (start_addr + len - 1) / 256 - start_addr / 256 + 1 := by omega
    rw [e]
  · intro p hp
    have h := writePlan_pass_bounds start_addr len len 0 p hp
    have hd : p.disk < JBOD_NUM_DISKS := by
      rw [h.2.2.2.2.2.1]; omega
    have hk : p.block < 256 := by
      rw [h.2.2.2.2.2.2.1]; omega
    exact ⟨hd, hk, op_seek_disk_disk p.disk (by omega), op_seek_block_block p.block hk⟩

/-- Witness of C17: `write(65000, 1000)` on 8 disks runs from block 253 of
disk 0 into block 1 of disk 1. -/
theorem write_visits_blocks_in_order_witness :
    ∃ s1, mdadm_write (mkState true false zeroJbod) 65000 1000 (some countBuf) (constBuf 0)
        = .ok (((1000 : Nat) : Int), s1) ∧
      s1.trace = (mkState true false zeroJbod).trace ++ writeEvents (writePlan 65000 1000 1000 0) ∧
      (writePlan 65000 1000 1000 0).map WritePass.target
        = (List.range' (65000 / 256) ((65000 + 1000 - 1) / 256 - 65000 / 256 + 1)).map blockAt ∧
      ∀ p ∈ writePlan 65000 1000 1000 0, p.disk < 8 ∧ p.block < 256 ∧
        (op p.disk 0 JBOD_SEEK_TO_DISK >>> 28) % 16 = p.disk ∧
        (op 0 p.block JBOD_SEEK_TO_BLOCK >>> 20) % 256 = p.block :=
  write_visits_blocks_in_order 8 (mkState true false zeroJbod) 65000 1000 countBuf (constBuf 0)
    (by decide) rfl (by decide) (by decide) (by decide)

/-- C19: on a mounted system with at most 16 disks, a write of at most 1024
bytes that ends inside the capacity, with a present buffer, returns exactly
`write_len`; its loop makes the passes of `writePlan`, each of which adds
between 1 and 256 bytes to `written_bytes`, the next pass starting at the sum,
until `written_bytes ≥ write_len`; there are at most
`⌈(start_addr % 256 + write_len) / 256⌉ ≤ 5` passes. With `write_len ≠ 0` and
a NULL buffer the call returns -1 and changes nothing. -/
theorem write_terminates_with_length (JBOD_NUM_DISKS : Nat) (s : State)
    (start_addr write_len : Nat) (write_buf tmp : Buf) (hnd : JBOD_NUM_DISKS ≤ 16)
    (hm : s.MOUNTED = true) (hlen : write_len ≤ 1024)
    (hcap : start_addr + write_len ≤ JBOD_NUM_DISKS * 65536) :
    (∃ s1, mdadm_write s start_addr write_len (some write_buf) tmp
          = .ok ((write_len : Int), s1) ∧
        s1.trace = s.trace ++ writeEvents (writePlan start_addr write_len write_len 0)) ∧
      (∀ p ∈ writePlan start_addr write_len write_len 0,
        1 ≤ p.bytes_to_write ∧ p.bytes_to_write ≤ 256) ∧
      (∃ W, write_len ≤ W ∧
        tiles 0 W ((writePlan start_addr write_len write_len 0).map WritePass.piece)) ∧
      (writePlan start_addr write_len write_len 0).length
        ≤ (start_addr % 256 + write_len + 255) / 256 ∧
      (start_addr % 256 + write_len + 255) / 256 ≤ 5 ∧
      (write_len ≠ 0 → mdadm_write s start_addr write_len none tmp = .ok (-1, s)) := by
  obtain ⟨s1, hrun, htr, _, _, _⟩ := mdadm_write_spec s start_addr write_len write_buf tmp hm
    hlen (by omega)
  refine ⟨⟨s1, hrun, htr⟩, ?_, ?_, ?_, by omega, ?_⟩
  · intro p hp
    have h := writePlan_pass_bounds start_addr write_len write_len 0 p hp
    exact ⟨h.1, h.2.1⟩
  · obtain ⟨W, hW, _, ht⟩ := writePlan_tiles start_addr write_len write_len 0 (by omega)
    exact ⟨W, hW, ht⟩
  · by_cases h0 : write_len = 0
    · subst h0
      simp [writePlan]
    · rw [writePlan_length start_addr write_len write_len (by omega) (le_refl _)]
  · intro hne
    have hlt : ¬ ((start_addr + write_len) % 4294967296 > 1048576) := by omega
    unfold mdadm_write
    simp [hm, hne, hlt, hlen]

/-- Witness of C19: `write(300, 1000)` on 8 disks, and `write(300, 1000, NULL)`. -/
theorem write_terminates_with_length_witness :
    (∃ s1, mdadm_write (mkState true false zeroJbod) 300 1000 (some countBuf) (constBuf 0)
          = .ok (((1000 : Nat) : Int), s1) ∧
        s1.trace = (mkState true false zeroJbod).trace ++ writeEvents (writePlan 300 1000 1000 0)) ∧
      (∀ p ∈ writePlan 300 1000 1000 0, 1 ≤ p.bytes_to_write ∧ p.bytes_to_write ≤ 256) ∧
      (∃ W, 1000 ≤ W ∧ tiles 0 W ((writePlan 300 1000 1000 0).map WritePass.piece)) ∧
      (writePlan 300 1000 1000 0).length ≤ (300 % 256 + 1000 + 255) / 256 ∧
      (300 % 256 + 1000 + 255) / 256 ≤ 5 ∧
      (1000 ≠ 0 → mdadm_write (mkState true false zeroJbod) 300 1000 none (constBuf 0)
        = .ok (-1, mkState true false zeroJbod)) :=
  write_terminates_with_length 8 (mkState true false zeroJbod) 300 1000 countBuf (constBuf 0)
    (by decide) rfl (by decide) (by decide)

/-- C20: on a mounted system with at most 16 disks, a write of at most 1024
bytes that ends inside the capacity, with a present buffer or with length 0,
returns, leaves the mount flag and the cache as they were, and leaves every
byte of every block that holds no linear address of
`[start_addr, start_addr + len)` as it was. (The source buffer is `const`:
the embedding of `mdadm_write` has no way to change it.) -/
theorem write_frame (JBOD_NUM_DISKS : Nat) (s : State) (start_addr len : Nat)
    (write_buf : Option Buf) (tmp : Buf) (hnd : JBOD_NUM_DISKS ≤ 16) (hm : s.MOUNTED = true)
    (hlen : len ≤ 1024) (hcap : start_addr + len ≤ JBOD_NUM_DISKS * 65536)
    (hbuf : write_buf.isSome = true ∨ len = 0) :
    ∃ r s1, mdadm_write s start_addr len write_buf tmp = .ok (r, s1) ∧
      s1.MOUNTED = s.MOUNTED ∧ s1.cache = s.cache ∧
      ∀ d k, (∀ x, start_addr ≤ x → x < start_addr + len →
          ¬ (x / 65536 = d ∧ x % 65536 / 256 = k)) →
        ∀ i, s1.jbod.mem d k i = s.jbod.mem d k i := by
  cases write_buf with
  | some wb =>
      obtain ⟨s1, hrun, _, hmt, hca, hfr⟩ := mdadm_write_spec s start_addr len wb tmp hm hlen
        (by omega)
      exact ⟨_, s1, hrun, hmt, hca, hfr⟩
  | none =>
      have h0 : len = 0 := by
        rcases hbuf with h | h
        · simp at h
        · exact h
      subst h0
      refine ⟨0, s, ?_, rfl, rfl, fun _ _ _ _ => rfl⟩
      have hlt : ¬ (start_addr % 4294967296 > 1048576) := by omega
      unfold mdadm_write
      simp [hm]
      omega

/-- Witness of C20: `write(300, 1000)` on 8 disks. -/
theorem write_frame_witness :
    ∃ r s1, mdadm_write (mkState true false zeroJbod) 300 1000 (some countBuf) (constBuf 0)
        = .ok (r, s1) ∧
      s1.MOUNTED = (mkState true false zeroJbod).MOUNTED ∧
      s1.cache = (mkState true false zeroJbod).cache ∧
      ∀ d k, (∀ x, 300 ≤ x → x < 300 + 1000 → ¬ (x / 65536 = d ∧ x % 65536 / 256 = k)) →
        ∀ i, s1.jbod.mem d k i = (mkState true false zeroJbod).jbod.mem d k i :=
  write_frame 8 (mkState true false zeroJbod) 300 1000 (some countBuf) (constBuf 0) (by decide)
    rfl (by decide) (by decide) (Or.inl rfl)

/-- C13: `write(300, 10)` makes one pass with `bytes_to_write = 212`, not 10:
the in-block offset 44 is not 0, so the pass copies `256 - 44` bytes from
`write_buf`, `written_bytes` ends at 212, and the block handed to the device
holds at index 54 the byte at distance 10 from `write_buf`, past the caller's
ten bytes. -/
theorem write_copies_past_length :
    writePlan 300 10 10 0
        = [{ disk := 0, block := 1, offset := 44, written_bytes := 0, bytes_to_write := 212 }] ∧
      writeRet (mdadm_write (mkState true false zeroJbod) 300 10 (some countBuf) (constBuf 0))
        = some 10 ∧
      (writeStateD (mdadm_write (mkState true false zeroJbod) 300 10 (some countBuf) (constBuf 0))
        (mkState true false zeroJbod)).trace
        = [Event.jbod (op 0 0 JBOD_SEEK_TO_DISK), Event.jbod (op 0 1 JBOD_SEEK_TO_BLOCK),
           Event.memcpy 0 44 212, Event.jbod (op 0 0 JBOD_WRITE_BLOCK)] ∧
      (writeStateD (mdadm_write (mkState true false zeroJbod) 300 10 (some countBuf) (constBuf 0))
        (mkState true false zeroJbod)).jbod.mem 0 1 54 = countBuf 10 ∧
      countBuf 10 = 11 := by
  decide

/-! ## The cache-disabled read loop as a sequence of passes -/

theorem readPlan_exit (L fuel A off rb : Nat) (h : ¬ rb < L) : readPlan L fuel A off rb = [] := by
  cases fuel <;> simp [readPlan, h]

theorem readPlan_succ (L fuel A off rb : Nat) (h : rb < L) :
    readPlan L (fuel + 1) A off rb =
      { disk := A / 65536, block := A % 65536 / 256, offset := off, read_bytes := rb,
        copied := if off + (L - rb) < 256 then L - rb else 256 - off,
        next_disk := (A + (rb + if off + (L - rb) < 256 then L - rb else 256 - off)) / 65536,
        next_block :=
          (A + (rb + if off + (L - rb) < 256 then L - rb else 256 - off)) % 65536 / 256 }
        :: readPlan L fuel (A + (rb + if off + (L - rb) < 256 then L - rb else 256 - off)) 0
            (rb + if off + (L - rb) < 256 then L - rb else 256 - off) := by
  simp [readPlan, h]

theorem readCopied_natCast (L : Nat) (v : ReadVars) (off rb : Nat) (hoff : v.offset = (off : Int))
    (hrb : v.read_bytes = (rb : Int)) (hlt : rb < L) (ho : off < 256) :
    readCopied L v = ((if off + (L - rb) < 256 then L - rb else 256 - off : Nat) : Int) := by
  unfold readCopied
  rw [hoff, hrb]
  split_ifs <;> omega

/-- On a valid request the cache-disabled read loop returns with
`read_bytes = read_len`; its collaborator calls and copies are those of
`readPlan`, and it changes `read_buf` only at distances in
`[read_bytes, read_len)`. -/
theorem readLoop_spec (L : Nat) (hL : L ≤ 1024) :
    ∀ (fuel : Nat) (v : ReadVars) (A off rb : Nat) (b : Buf),
      v.current_address = (A : Int) → v.current_disk = ((A / 65536 : Nat) : Int) →
      v.current_block = ((A % 65536 / 256 : Nat) : Int) → v.offset = (off : Int) → off < 256 →
      v.read_bytes = (rb : Int) → rb ≤ L → v.read_buf = some b → L - rb ≤ fuel →
      A + 1024 * (L - rb) < 2147483648 →
      ∃ v1 out, readLoop L fuel v = .ok v1 ∧ v1.read_bytes = (L : Int) ∧
        v1.s.trace = v.s.trace ++ readEvents (readPlan L fuel A off rb) ∧
        v1.read_buf = some out ∧ (∀ j, L ≤ j → out j = b j) ∧ (∀ j, j < rb → out j = b j) ∧
        v1.s.MOUNTED = v.s.MOUNTED := by
  intro fuel
  induction fuel with
  | zero =>
      intro v A off rb b _ _ _ _ _ hrb hle hbuf hfuel _
      have hx : ¬ u32 v.read_bytes < L := by
        rw [hrb, u32_natCast rb (by omega)]; omega
      exact ⟨v, b, readLoop_exit L 0 v hx, by rw [hrb]; congr 1; omega,
        by simp [readPlan, readEvents], hbuf, fun _ _ => rfl, fun _ _ => rfl, rfl⟩
  | succ n ih =>
      intro v A off rb b hA hd hk hoff ho hrb hle hbuf hfuel hbound
      by_cases hlt : rb < L
      · have hx : u32 v.read_bytes < L := by
          rw [hrb, u32_natCast rb (by omega)]; exact hlt
        have hcop := readCopied_natCast L v off rb hoff hrb hlt ho
        generalize hc : (if off + (L - rb) < 256 then L - rb else 256 - off : Nat) = c at hcop
        have hc1 : 1 ≤ c ∧ rb + c ≤ L ∧ off + c ≤ 256 := by
          rw [← hc]; split_ifs <;> omega
        rw [readLoop_succ L n v hx,
          readBody_ok L v b hbuf (by omega) (by omega) (by omega) (by omega) hL]
        have hnrb : (readNext L v b).read_bytes = ((rb + c : Nat) : Int) := by
          rw [readNext_read_bytes, hcop, hrb]; push_cast; rfl
        have hnA : (readNext L v b).current_address = ((A + (rb + c) : Nat) : Int) := by
          show v.current_address + (v.read_bytes + readCopied L v) = _
          rw [hA, hrb, hcop]; push_cast; rfl
        have hnd : (readNext L v b).current_disk = (((A + (rb + c)) / 65536 : Nat) : Int) := by
          show ((readNext L v b).current_address).tdiv 65536 = _
          rw [hnA]; exact tdiv_natCast _ 65536
        have hnk : (readNext L v b).current_block
            = (((A + (rb + c)) % 65536 / 256 : Nat) : Int) := by
          show (((readNext L v b).current_address).tmod 65536).tdiv 256 = _
          rw [hnA, show ((A + (rb + c) : Nat) : Int).tmod 65536
            = (((A + (rb + c)) % 65536 : Nat) : Int) from tmod_natCast _ 65536]
          exact tdiv_natCast _ 256
        obtain ⟨v1, out, hrun, hfin, htr, hout, hhi, hlo, hmt⟩ := ih (readNext L v b)
          (A + (rb + c)) 0 (rb + c) _ hnA hnd hnk (readNext_offset L v b) (by omega) hnrb
          (by omega) (readNext_read_buf_eq L v b) (by omega) (by omega)
        refine ⟨v1, out, hrun, hfin, ?_, hout, ?_, ?_, ?_⟩
        · rw [htr, readNext_trace, readPlan_succ L n A off rb hlt, hc, hnd, hnk, hd, hk, hrb,
            hoff, hcop, u32_natCast _ (by omega), u32_natCast _ (by omega),
            u32_natCast _ (by omega), u32_natCast _ (by omega), List.append_assoc]
          rfl
        · intro j hj
          rw [hhi j hj]
          simp only [memcpy, hrb, hcop, Int.toNat_ofNat]
          rw [if_neg (by omega)]
        · intro j hj
          rw [hlo j (by omega)]
          simp only [memcpy, hrb, hcop, Int.toNat_ofNat]
          rw [if_neg (by omega)]
        · rw [hmt]
          simp only [readNext, jbod_operation_MOUNTED, log_MOUNTED]
      · have hx : ¬ u32 v.read_bytes < L := by
          rw [hrb, u32_natCast rb (by omega)]; exact hlt
        exact ⟨v, b, readLoop_exit L _ v hx, by rw [hrb]; congr 1; omega,
          by simp [readPlan_exit L _ A off rb hlt, readEvents], hbuf, fun _ _ => rfl,
          fun _ _ => rfl, rfl⟩

/-- On a valid request with the cache disabled and a present buffer,
`mdadm_read` returns `read_len`, its trace grows by the events of `readPlan`
and `read_buf` is unchanged from distance `read_len` on. -/
theorem mdadm_read_spec (JBOD_NUM_DISKS : Nat) (s : State) (a L : Nat) (rb tmp : Buf)
    (hnd : JBOD_NUM_DISKS ≤ 16) (hm : s.MOUNTED = true) (hc : s.cache.enabled = false)
    (hL : L ≤ 1024) (hcap : a + L ≤ JBOD_NUM_DISKS * 65536) :
    ∃ s1 out, mdadm_read JBOD_NUM_DISKS s a L (some rb) tmp = .ok ((L : Int), s1, some out) ∧
      s1.trace = s.trace ++ readEvents (readPlan L L a (a % 256) 0) ∧
      (∀ j, L ≤ j → out j = rb j) ∧ s1.MOUNTED = s.MOUNTED := by
  rw [mdadm_read_valid JBOD_NUM_DISKS s a L (some rb) tmp hm hL hcap (by omega) (Or.inl rfl)]
  have hce : cache_enabled s = false := hc
  rw [hce]
  simp only [Bool.false_eq_true, if_false]
  obtain ⟨v1, out, hrun, hfin, htr, hout, hhi, _, hmt⟩ := readLoop_spec L hL L
    (ReadVars.mk s (a : Int) ((a / 65536 : Nat) : Int) ((a % 65536 / 256 : Nat) : Int)
      ((a % 256 : Nat) : Int) 0 tmp (some rb))
    a (a % 256) 0 rb rfl rfl rfl rfl (by omega) rfl (by omega) rfl (by omega) (by omega)
  rw [hrun]
  simp only [hfin, hout]
  exact ⟨v1.s, out, rfl, htr, hhi, hmt⟩

/-! ## The sizes and blocks of the read passes -/

theorem readPlan_pass_bounds (L : Nat) :
    ∀ (fuel A off rb : Nat) (p : ReadPass), off < 256 → p ∈ readPlan L fuel A off rb →
      1 ≤ p.copied ∧ p.offset + p.copied ≤ 256 ∧ p.read_bytes + p.copied ≤ L ∧
        p.block < 256 ∧ p.next_block < 256 := by
  intro fuel
  induction fuel with
  | zero => intro A off rb p _ hp; simp [readPlan] at hp
  | succ n ih =>
      intro A off rb p ho hp
      by_cases hlt : rb < L
      · rw [readPlan_succ L n A off rb hlt, List.mem_cons] at hp
        rcases hp with rfl | hp
        · simp only []
          refine ⟨?_, ?_, ?_, by omega, by omega⟩ <;> split_ifs <;> omega
        · exact ih _ _ _ p (by omega) hp
      · rw [readPlan_exit L _ A off rb hlt] at hp
        simp at hp

theorem readPlan_tiles (L : Nat) :
    ∀ (fuel A off rb : Nat), off < 256 → rb ≤ L → L - rb ≤ fuel →
      tiles rb L ((readPlan L fuel A off rb).map ReadPass.piece) ∧
        ((readPlan L fuel A off rb).map ReadPass.copied).sum = L - rb := by
  intro fuel
  induction fuel with
  | zero =>
      intro A off rb _ hle hfuel
      simp only [readPlan, List.map_nil, tiles, List.sum_nil]
      omega
  | succ n ih =>
      intro A off rb ho hle hfuel
      by_cases hlt : rb < L
      · rw [readPlan_succ L n A off rb hlt]
        generalize hc : (if off + (L - rb) < 256 then L - rb else 256 - off : Nat) = c
        have hc1 : 1 ≤ c ∧ rb + c ≤ L := by
          rw [← hc]; split_ifs <;> omega
        have h := ih (A + (rb + c)) 0 (rb + c) (by omega) (by omega) (by omega)
        simp only [List.map_cons, List.sum_cons, tiles, ReadPass.piece]
        refine ⟨⟨trivial, h.1⟩, ?_⟩
        rw [h.2]
        omega
      · rw [readPlan_exit L _ A off rb hlt]
        simp only [List.map_nil, tiles, List.sum_nil]
        omega

/-! ## Claims about the cache-disabled read loop -/

/-- C12: on a mounted system with at most 16 disks and the cache disabled, a
read of at most 1024 bytes that ends inside the capacity, with a present
buffer, returns `read_len` after the passes of `readPlan`; the numbers of
bytes the passes copy sum to `read_len`; every pass copies at least one byte
from `temp_buf[offset .. offset + copied)` with `offset + copied ≤ 256`; the
pieces of `read_buf` the passes fill tile `[0, read_len)` in increasing order;
and `read_buf` is unchanged from distance `read_len` on. -/
theorem read_fragment_sizes (JBOD_NUM_DISKS : Nat) (s : State) (start_addr read_len : Nat)
    (read_buf tmp : Buf) (hnd : JBOD_NUM_DISKS ≤ 16) (hm : s.MOUNTED = true)
    (hc : s.cache.enabled = false) (hlen : read_len ≤ 1024)
    (hcap : start_addr + read_len ≤ JBOD_NUM_DISKS * 65536) :
    ∃ s1 out, mdadm_read JBOD_NUM_DISKS s start_addr read_len (some read_buf) tmp
        = .ok ((read_len : Int), s1, some out) ∧
      s1.trace = s.trace
        ++ readEvents (readPlan read_len read_len start_addr (start_addr % 256) 0) ∧
      ((readPlan read_len read_len start_addr (start_addr % 256) 0).map ReadPass.copied).sum
        = read_len ∧
      (∀ p ∈ readPlan read_len read_len start_addr (start_addr % 256) 0,
        1 ≤ p.copied ∧ p.offset + p.copied ≤ 256) ∧
      tiles 0 read_len
        ((readPlan read_len read_len start_addr (start_addr % 256) 0).map ReadPass.piece) ∧
      ∀ j, read_len ≤ j → out j = read_buf j := by
  obtain ⟨s1, out, hrun, htr, hhi, _⟩ := mdadm_read_spec JBOD_NUM_DISKS s start_addr read_len
    read_buf tmp hnd hm hc hlen hcap
  have ht := readPlan_tiles read_len read_len start_addr (start_addr % 256) 0 (by omega)
    (by omega) (by omega)
  refine ⟨s1, out, hrun, htr, by rw [ht.2]; omega, ?_, ht.1, hhi⟩
  intro p hp
  have h := readPlan_pass_bounds read_len read_len start_addr (start_addr % 256) 0 p (by omega)
    hp
  exact ⟨h.1, h.2.1⟩

/-- Witness of C12: `read(300, 700)` on 8 disks. -/
theorem read_fragment_sizes_witness :
    ∃ s1 out, mdadm_read 8 (mkState true false zeroJbod) 300 700 (some countBuf) (constBuf 0)
        = .ok (((700 : Nat) : Int), s1, some out) ∧
      s1.trace = (mkState true false zeroJbod).trace
        ++ readEvents (readPlan 700 700 300 (300 % 256) 0) ∧
      ((readPlan 700 700 300 (300 % 256) 0).map ReadPass.copied).sum = 700 ∧
      (∀ p ∈ readPlan 700 700 300 (300 % 256) 0, 1 ≤ p.copied ∧ p.offset + p.copied ≤ 256) ∧
      tiles 0 700 ((readPlan 700 700 300 (300 % 256) 0).map ReadPass.piece) ∧
      ∀ j, 700 ≤ j → out j = countBuf j :=
  read_fragment_sizes 8 (mkState true false zeroJbod) 300 700 countBuf (constBuf 0) (by decide)
    rfl rfl (by decide) (by decide)

/-- C15: with 8 disks and the cache disabled, on a device whose block `b`
holds the byte `b`, `read(65024, 768)` starts in block 254 of disk 0; the
blocks with the next global indices are block 255 of disk 0 and block 0 of
disk 1, but the three passes read block 254 and block 255 of disk 0 and then
block 1 of disk 1: `read_buf[512]` is 1, the byte of block 1, and the third
pass selects `op 1 0` and `op 0 1`. -/
theorem read_skips_a_block :
    (List.range' (65024 / 256) 3).map blockAt = [(0, 254), (0, 255), (1, 0)] ∧
      (readPlan 768 768 65024 (65024 % 256) 0).map ReadPass.target
        = [(0, 254), (0, 255), (1, 1)] ∧
      (readState (mdadm_read 8 (mkState true false tagJbod) 65024 768 (some (constBuf 9))
          (constBuf 0))).map (fun s => s.trace)
        = some (readEvents (readPlan 768 768 65024 (65024 % 256) 0)) ∧
      readByte (mdadm_read 8 (mkState true false tagJbod) 65024 768 (some (constBuf 9))
        (constBuf 0)) 0 = some 254 ∧
      readByte (mdadm_read 8 (mkState true false tagJbod) 65024 768 (some (constBuf 9))
        (constBuf 0)) 256 = some 255 ∧
      readByte (mdadm_read 8 (mkState true false tagJbod) 65024 768 (some (constBuf 9))
        (constBuf 0)) 512 = some 1 ∧
      tagJbod.mem 1 0 0 = 0 := by
  decide

/-- The counterexample to C18: with 8 disks and the cache disabled,
`read(524032, 256)` reads the last block of the address space and then
re-selects disk 8, which is not in `[0, 8)`. -/
theorem read_reselects_past_last_disk :
    524032 + 256 = 8 * 65536 ∧
      (readState (mdadm_read 8 (mkState true false zeroJbod) 524032 256 (some (constBuf 9))
          (constBuf 0))).map (fun s => s.trace)
        = some [Event.jbod (op 7 0 JBOD_SEEK_TO_DISK), Event.jbod (op 0 255 JBOD_SEEK_TO_BLOCK),
                Event.jbod (op 0 0 JBOD_READ_BLOCK), Event.memcpy 0 0 256,
                Event.jbod (op 8 0 JBOD_SEEK_TO_DISK), Event.jbod (op 0 0 JBOD_SEEK_TO_BLOCK)] ∧
      (op 8 0 JBOD_SEEK_TO_DISK >>> 14) % 64 = JBOD_SEEK_TO_DISK ∧
      (op 8 0 JBOD_SEEK_TO_DISK >>> 28) % 16 = 8 ∧ ¬ (8 < 8) ∧
      (readState (mdadm_read 8 (mkState true false zeroJbod) 524032 256 (some (constBuf 9))
          (constBuf 0))).map (fun s => s.jbod.disk) = some 8 := by
  decide

/-- C18, amended: on a mounted system with at most 16 disks and the cache
disabled, a read of `1 ≤ len ≤ 1024` bytes that ends inside the capacity, with
a present buffer, returns `len` after at least one pass; every select-block of
every pass, the re-selects included, names a block `< 256`; the select-disk
before the first read-block names disk `start_addr / 65536 < JBOD_NUM_DISKS`;
the re-select at the end of the first pass names a disk `≤ JBOD_NUM_DISKS`,
equal to `JBOD_NUM_DISKS` exactly when that pass ends at the end of the
address space; and the select-disk before a second read-block names that same
disk, which is then `< JBOD_NUM_DISKS`. -/
theorem read_selects_near_range (JBOD_NUM_DISKS : Nat) (s : State) (start_addr len : Nat)
    (read_buf tmp : Buf) (hnd : JBOD_NUM_DISKS ≤ 16) (hm : s.MOUNTED = true)
    (hc : s.cache.enabled = false) (hlen1 : 1 ≤ len) (hlen : len ≤ 1024)
    (hcap : start_addr + len ≤ JBOD_NUM_DISKS * 65536) :
    ∃ s1 out p1 rest, mdadm_read JBOD_NUM_DISKS s start_addr len (some read_buf) tmp
        = .ok ((len : Int), s1, some out) ∧
      readPlan len len start_addr (start_addr % 256) 0 = p1 :: rest ∧
      s1.trace = s.trace ++ readEvents (p1 :: rest) ∧
      (∀ p ∈ p1 :: rest, p.block < 256 ∧ p.next_block < 256 ∧
        (op 0 p.block JBOD_SEEK_TO_BLOCK >>> 20) % 256 = p.block ∧
        (op 0 p.next_block JBOD_SEEK_TO_BLOCK >>> 20) % 256 = p.next_block) ∧
      p1.disk = start_addr / 65536 ∧ p1.disk < JBOD_NUM_DISKS ∧
      (op p1.disk 0 JBOD_SEEK_TO_DISK >>> 28) % 16 = p1.disk ∧
      p1.next_disk ≤ JBOD_NUM_DISKS ∧
      (p1.next_disk = JBOD_NUM_DISKS ↔ start_addr + p1.copied = JBOD_NUM_DISKS * 65536) ∧
      ∀ p2 rest2, rest = p2 :: rest2 → p2.disk = p1.next_disk ∧ p2.disk < JBOD_NUM_DISKS := by
  obtain ⟨s1, out, hrun, htr, _, _⟩ := mdadm_read_spec JBOD_NUM_DISKS s start_addr len
    read_buf tmp hnd hm hc hlen hcap
  have hall : ∀ p ∈ readPlan len len start_addr (start_addr % 256) 0,
      p.block < 256 ∧ p.next_block < 256 ∧
        (op 0 p.block JBOD_SEEK_TO_BLOCK >>> 20) % 256 = p.block ∧
        (op 0 p.next_block JBOD_SEEK_TO_BLOCK >>> 20) % 256 = p.next_block := by
    intro p hp
    have h := readPlan_pass_bounds len len start_addr (start_addr % 256) 0 p (by omega) hp
    exact ⟨h.2.2.2.1, h.2.2.2.2, op_seek_block_block _ h.2.2.2.1,
      op_seek_block_block _ h.2.2.2.2⟩
  obtain ⟨n, rfl⟩ : ∃ n, len = n + 1 := ⟨len - 1, by omega⟩
  rw [readPlan_succ (n + 1) n start_addr (start_addr % 256) 0 (by omega)] at htr hall
  generalize hcv : (if start_addr % 256 + (n + 1 - 0) < 256 then n + 1 - 0
    else 256 - start_addr % 256 : Nat) = c at htr hall
  have hc1 : 1 ≤ c ∧ c ≤ n + 1 := by
    rw [← hcv]; split_ifs <;> omega
  refine ⟨s1, out, _, _, hrun,
    by rw [readPlan_succ (n + 1) n start_addr (start_addr % 256) 0 (by omega), hcv],
    htr, hall, rfl, ?_, ?_, ?_, ?_, ?_⟩
  · show start_addr / 65536 < JBOD_NUM_DISKS
    omega
  · exact op_seek_disk_disk _ (by show start_addr / 65536 < 16; omega)
  · show (start_addr + (0 + c)) / 65536 ≤ JBOD_NUM_DISKS
    omega
  · show (start_addr + (0 + c)) / 65536 = JBOD_NUM_DISKS ↔ start_addr + c = JBOD_NUM_DISKS * 65536
    omega
  · intro p2 rest2 hrest
    by_cases hlt : 0 + c < n + 1
    · obtain ⟨m, rfl⟩ : ∃ m, n = m + 1 := ⟨n - 1, by omega⟩
      rw [readPlan_succ (m + 1 + 1) m _ 0 (0 + c) hlt] at hrest
      have hp2 := (List.cons.inj hrest).1
      subst hp2
      refine ⟨rfl, ?_⟩
      show (start_addr + (0 + c)) / 65536 < JBOD_NUM_DISKS
      omega
    · rw [readPlan_exit (n + 1) n _ 0 (0 + c) hlt] at hrest
      cases hrest

/-- Witness of C18, amended: `read(523776, 512)` on 8 disks reads the last two
blocks of the address space. -/
theorem read_selects_near_range_witness :
    ∃ s1 out p1 rest, mdadm_read 8 (mkState true false zeroJbod) 523776 512 (some countBuf)
        (constBuf 0) = .ok (((512 : Nat) : Int), s1, some out) ∧
      readPlan 512 512 523776 (523776 % 256) 0 = p1 :: rest ∧
      s1.trace = (mkState true false zeroJbod).trace ++ readEvents (p1 :: rest) ∧
      (∀ p ∈ p1 :: rest, p.block < 256 ∧ p.next_block < 256 ∧
        (op 0 p.block JBOD_SEEK_TO_BLOCK >>> 20) % 256 = p.block ∧
        (op 0 p.next_block JBOD_SEEK_TO_BLOCK >>> 20) % 256 = p.next_block) ∧
      p1.disk = 523776 / 65536 ∧ p1.disk < 8 ∧
      (op p1.disk 0 JBOD_SEEK_TO_DISK >>> 28) % 16 = p1.disk ∧
      p1.next_disk ≤ 8 ∧
      (p1.next_disk = 8 ↔ 523776 + p1.copied = 8 * 65536) ∧
      ∀ p2 rest2, rest = p2 :: rest2 → p2.disk = p1.next_disk ∧ p2.disk < 8 :=
  read_selects_near_range 8 (mkState true false zeroJbod) 523776 512 countBuf (constBuf 0)
    (by decide) rfl rfl (by decide) (by decide) (by decide)

/-! ## A cache-enabled read inside one block -/

theorem cache_insert_find (s : State) (d k : Int) (buf : Buf) :
    (cache_insert s d k buf).cache.find d k = some (fun i => if i < 256 then buf i else 0) := by
  simp [cache_insert, Cache.find, List.find?]

theorem bytes_to_copy_first (L : Nat) (hL : L ≤ 256) :
    i32 (min (usub32 L 0) JBOD_BLOCK_SIZE) = (L : Int) := by
  rw [usub32_of_le L 0 (by omega) (by omega), i32_of_lt _ (by unfold JBOD_BLOCK_SIZE; omega)]
  unfold JBOD_BLOCK_SIZE
  congr 1
  omega

/-- The first pass of the cache-enabled loop when the lookup hits. -/
theorem readCacheBody_hit (L a : Nat) (v : CacheVars) (rb blk : Buf)
    (hbuf : v.read_buf = some rb) (hi : v.i = 0) (hL : L ≤ 256)
    (hfind : v.s.cache.find ((a / 65536 : Nat) : Int) ((a % 65536 / 256 : Nat) : Int)
      = some blk) :
    readCacheBody L (a : Int) v
      = .ok (CacheVars.mk
          ((v.s.log (.lookup ((a / 65536 : Nat) : Int) ((a % 65536 / 256 : Nat) : Int) true)).log
            (.memcpy 0 0 (L : Int)))
          256 (fun i => if i < 256 then blk i else v.temp_buf i)
          (some (memcpy rb 0 (fun i => if i < 256 then blk i else v.temp_buf i) 0 L))) := by
  have e1 : ((a : Nat) : Int).tdiv 65536 = ((a / 65536 : Nat) : Int) := tdiv_natCast a 65536
  have e2 : ((a : Nat) : Int).tmod 65536 = ((a % 65536 : Nat) : Int) := tmod_natCast a 65536
  have e3 : (((a % 65536 : Nat) : Nat) : Int).tdiv 256 = ((a % 65536 / 256 : Nat) : Int) :=
    tdiv_natCast _ 256
  unfold readCacheBody
  simp only [e1, e2, e3, cache_lookup, hfind, hi, hbuf, bytes_to_copy_first L hL]
  rw [if_neg (by decide), if_neg (by decide),
    copyOut_some _ _ _ _ _ _ (le_refl _) (by omega) (by omega) (by simp)]
  rfl

/-- The first pass of the cache-enabled loop when the lookup misses. -/
theorem readCacheBody_miss (L a : Nat) (v : CacheVars) (rb : Buf)
    (hbuf : v.read_buf = some rb) (hi : v.i = 0) (hL : L ≤ 256) (hd : a / 65536 < 16)
    (hfind : v.s.cache.find ((a / 65536 : Nat) : Int) ((a % 65536 / 256 : Nat) : Int) = none) :
    ∃ s1, readCacheBody L (a : Int) v
        = .ok (CacheVars.mk s1 256
            (fun i => if i < 256 then v.s.jbod.mem (a / 65536) (a % 65536 / 256) i
              else v.temp_buf i)
            (some (memcpy rb 0
              (fun i => if i < 256 then v.s.jbod.mem (a / 65536) (a % 65536 / 256) i
                else v.temp_buf i) 0 L))) ∧
      s1.trace = v.s.trace ++
        [Event.lookup ((a / 65536 : Nat) : Int) ((a % 65536 / 256 : Nat) : Int) false,
         Event.jbod (op (a / 65536) 0 JBOD_SEEK_TO_DISK),
         Event.jbod (op 0 (a % 65536 / 256) JBOD_SEEK_TO_BLOCK),
         Event.jbod (op 0 0 JBOD_READ_BLOCK),
         Event.insert ((a / 65536 : Nat) : Int) ((a % 65536 / 256 : Nat) : Int),
         Event.memcpy 0 0 (L : Int)] ∧
      s1.MOUNTED = v.s.MOUNTED ∧ s1.cache.enabled = v.s.cache.enabled ∧
      s1.jbod.mem = v.s.jbod.mem ∧
      s1.cache.find ((a / 65536 : Nat) : Int) ((a % 65536 / 256 : Nat) : Int)
        = some (fun i => if i < 256 then v.s.jbod.mem (a / 65536) (a % 65536 / 256) i
            else 0) := by
  have e1 : ((a : Nat) : Int).tdiv 65536 = ((a / 65536 : Nat) : Int) := tdiv_natCast a 65536
  have e2 : ((a : Nat) : Int).tmod 65536 = ((a % 65536 : Nat) : Int) := tmod_natCast a 65536
  have e3 : (((a % 65536 : Nat) : Nat) : Int).tdiv 256 = ((a % 65536 / 256 : Nat) : Int) :=
    tdiv_natCast _ 256
  have hk : a % 65536 / 256 < 256 := by omega
  unfold readCacheBody
  simp only [e1, e2, e3, cache_lookup, hfind, hi, hbuf, bytes_to_copy_first L hL,
    u32_natCast (a / 65536) (by omega), u32_natCast (a % 65536 / 256) (by omega),
    jbod_seek_disk _ _ hd, jbod_seek_block _ _ hk, jbod_read_block, if_true]
  rw [copyOut_some _ _ _ _ _ _ (le_refl _) (by omega) (by omega) (by simp)]
  refine ⟨_, rfl, ?_, rfl, rfl, rfl, ?_⟩
  · simp [cache_insert, State.log]
  · simp only [cache_insert, State.log, Cache.find, List.find?, decide_True, Bool.and_self,
      and_self, Option.map_some', Option.some.injEq]
    funext i
    by_cases hi256 : i < 256
    · simp [hi256]
    · simp [hi256]

/-- A cache-enabled read inside one block whose lookup hits: one lookup, one
copy from the start of the cached block, no device call. -/
theorem read_cached_hit (JBOD_NUM_DISKS : Nat) (s : State) (a L : Nat) (rb tmp blk : Buf)
    (hnd : JBOD_NUM_DISKS ≤ 16) (hm : s.MOUNTED = true) (hc : s.cache.enabled = true)
    (hL : 1 ≤ L) (hblk : a % 256 + L ≤ 256) (hcap : a + L ≤ JBOD_NUM_DISKS * 65536)
    (hfind : s.cache.find ((a / 65536 : Nat) : Int) ((a % 65536 / 256 : Nat) : Int) = some blk) :
    mdadm_read JBOD_NUM_DISKS s a L (some rb) tmp
      = .ok ((L : Int),
          (s.log (.lookup ((a / 65536 : Nat) : Int) ((a % 65536 / 256 : Nat) : Int) true)).log
            (.memcpy 0 0 (L : Int)),
          some (memcpy rb 0 (fun i => if i < 256 then blk i else tmp i) 0 L)) := by
  rw [mdadm_read_valid JBOD_NUM_DISKS s a L (some rb) tmp hm (by omega) hcap (by omega)
    (Or.inl rfl)]
  have hce : cache_enabled s = true := hc
  rw [if_pos hce]
  obtain ⟨k, rfl⟩ : ∃ k, L = k + 1 := ⟨L - 1, by omega⟩
  generalize hv : CacheVars.mk s 0 tmp (some rb) = v
  have hvs : v.s = s := by rw [← hv]
  have hvt : v.temp_buf = tmp := by rw [← hv]
  rw [readCacheLoop_succ (k + 1) _ k v (by rw [← hv]; show 0 < k + 1; omega),
    readCacheBody_hit (k + 1) a v rb blk (by rw [← hv]) (by rw [← hv]) (by omega)
      (by rw [hvs]; exact hfind)]
  simp only []
  rw [readCacheLoop_exit (k + 1) _ k _ (by show ¬ 256 < k + 1; omega)]
  simp only [hvs, hvt]

/-- A cache-enabled read inside one block whose lookup misses: one lookup,
select-disk, select-block, read-block, one insert of the block read, one copy
from the start of that block. -/
theorem read_cached_miss (JBOD_NUM_DISKS : Nat) (s : State) (a L : Nat) (rb tmp : Buf)
    (hnd : JBOD_NUM_DISKS ≤ 16) (hm : s.MOUNTED = true) (hc : s.cache.enabled = true)
    (hL : 1 ≤ L) (hblk : a % 256 + L ≤ 256) (hcap : a + L ≤ JBOD_NUM_DISKS * 65536)
    (hfind : s.cache.find ((a / 65536 : Nat) : Int) ((a % 65536 / 256 : Nat) : Int) = none) :
    ∃ s1, mdadm_read JBOD_NUM_DISKS s a L (some rb) tmp
        = .ok ((L : Int), s1,
            some (memcpy rb 0
              (fun i => if i < 256 then s.jbod.mem (a / 65536) (a % 65536 / 256) i else tmp i)
              0 L)) ∧
      s1.trace = s.trace ++
        [Event.lookup ((a / 65536 : Nat) : Int) ((a % 65536 / 256 : Nat) : Int) false,
         Event.jbod (op (a / 65536) 0 JBOD_SEEK_TO_DISK),
         Event.jbod (op 0 (a % 65536 / 256) JBOD_SEEK_TO_BLOCK),
         Event.jbod (op 0 0 JBOD_READ_BLOCK),
         Event.insert ((a / 65536 : Nat) : Int) ((a % 65536 / 256 : Nat) : Int),
         Event.memcpy 0 0 (L : Int)] ∧
      s1.MOUNTED = s.MOUNTED ∧ s1.cache.enabled = s.cache.enabled ∧
      s1.jbod.mem = s.jbod.mem ∧
      s1.cache.find ((a / 65536 : Nat) : Int) ((a % 65536 / 256 : Nat) : Int)
        = some (fun i => if i < 256 then s.jbod.mem (a / 65536) (a % 65536 / 256) i else 0) := by
  rw [mdadm_read_valid JBOD_NUM_DISKS s a L (some rb) tmp hm (by omega) hcap (by omega)
    (Or.inl rfl)]
  have hce : cache_enabled s = true := hc
  rw [if_pos hce]
  obtain ⟨k, rfl⟩ : ∃ k, L = k + 1 := ⟨L - 1, by omega⟩
  generalize hv : CacheVars.mk s 0 tmp (some rb) = v
  have hvs : v.s = s := by rw [← hv]
  have hvt : v.temp_buf = tmp := by rw [← hv]
  obtain ⟨s1, hbody, htr, hm1, hc1, hmem1, hf1⟩ := readCacheBody_miss (k + 1) a v rb
    (by rw [← hv]) (by rw [← hv]) (by omega) (by omega) (by rw [hvs]; exact hfind)
  rw [readCacheLoop_succ (k + 1) _ k v (by rw [← hv]; show 0 < k + 1; omega), hbody]
  simp only []
  rw [readCacheLoop_exit (k + 1) _ k _ (by show ¬ 256 < k + 1; omega)]
  rw [hvs] at htr hm1 hc1 hmem1 hf1
  rw [hvs, hvt]
  exact ⟨s1, rfl, htr, hm1, hc1, hmem1, hf1⟩

/-- C11: on a mounted system with at most 16 disks and the cache enabled, two
consecutive reads of the same range inside one block both return `len`. The
first either hits (one lookup, one copy) or misses, and then sends
select-disk, select-block and one read-block and inserts the block the device
returned; after it the cache holds that (disk, block), with the device's
bytes when it missed. The second call hits: it makes one lookup and one copy
and sends nothing to the device, whose state it leaves as it was. Over both
calls at most one read-block is sent. -/
theorem cache_hit_avoids_device (JBOD_NUM_DISKS : Nat) (s : State) (start_addr len : Nat)
    (rb1 rb2 tmp1 tmp2 : Buf) (hnd : JBOD_NUM_DISKS ≤ 16) (hm : s.MOUNTED = true)
    (hc : s.cache.enabled = true) (hlen : 1 ≤ len) (hblk : start_addr % 256 + len ≤ 256)
    (hcap : start_addr + len ≤ JBOD_NUM_DISKS * 65536) :
    ∃ s1 out1 s2 out2 blk,
      mdadm_read JBOD_NUM_DISKS s start_addr len (some rb1) tmp1
        = .ok ((len : Int), s1, some out1) ∧
      mdadm_read JBOD_NUM_DISKS s1 start_addr len (some rb2) tmp2
        = .ok ((len : Int), s2, some out2) ∧
      (s1.trace = s.trace ++
          [Event.lookup ((start_addr / 65536 : Nat) : Int)
            ((start_addr % 65536 / 256 : Nat) : Int) true, Event.memcpy 0 0 (len : Int)] ∨
        (s1.trace = s.trace ++
          [Event.lookup ((start_addr / 65536 : Nat) : Int)
            ((start_addr % 65536 / 256 : Nat) : Int) false,
           Event.jbod (op (start_addr / 65536) 0 JBOD_SEEK_TO_DISK),
           Event.jbod (op 0 (start_addr % 65536 / 256) JBOD_SEEK_TO_BLOCK),
           Event.jbod (op 0 0 JBOD_READ_BLOCK),
           Event.insert ((start_addr / 65536 : Nat) : Int)
            ((start_addr % 65536 / 256 : Nat) : Int),
           Event.memcpy 0 0 (len : Int)] ∧
          ∀ i, i < 256 →
            blk i = s.jbod.mem (start_addr / 65536) (start_addr % 65536 / 256) i)) ∧
      s1.cache.find ((start_addr / 65536 : Nat) : Int) ((start_addr % 65536 / 256 : Nat) : Int)
        = some blk ∧
      s2.trace = s1.trace ++
        [Event.lookup ((start_addr / 65536 : Nat) : Int)
          ((start_addr % 65536 / 256 : Nat) : Int) true, Event.memcpy 0 0 (len : Int)] ∧
      s2.jbod = s1.jbod ∧
      ((s2.trace.drop s1.trace.length).filter isJbod = []) ∧
      ((s2.trace.drop s.trace.length).filter isReadBlock).length ≤ 1 := by
  have hd : start_addr / 65536 < 16 := by omega
  have hk : start_addr % 65536 / 256 < 256 := by omega
  have hsd : isReadBlock (Event.jbod (op (start_addr / 65536) 0 JBOD_SEEK_TO_DISK)) = false := by
    simp [isReadBlock, op_seek_disk_cmd _ hd, JBOD_READ_BLOCK]
  have hsb : isReadBlock (Event.jbod (op 0 (start_addr % 65536 / 256) JBOD_SEEK_TO_BLOCK))
      = false := by
    simp [isReadBlock, op_seek_block_cmd _ hk, JBOD_READ_BLOCK]
  cases hfind : s.cache.find ((start_addr / 65536 : Nat) : Int)
      ((start_addr % 65536 / 256 : Nat) : Int) with
  | some blk =>
      have h1 := read_cached_hit JBOD_NUM_DISKS s start_addr len rb1 tmp1 blk hnd hm hc hlen
        hblk hcap hfind
      have h2 := read_cached_hit JBOD_NUM_DISKS
        ((s.log (.lookup ((start_addr / 65536 : Nat) : Int)
          ((start_addr % 65536 / 256 : Nat) : Int) true)).log (.memcpy 0 0 (len : Int)))
        start_addr len rb2 tmp2 blk hnd hm hc hlen hblk hcap hfind
      refine ⟨_, _, _, _, blk, h1, h2, Or.inl ?_, hfind, by simp, rfl, ?_, ?_⟩
      · simp
      · simp [isJbod]
      · simp [isReadBlock]
  | none =>
      obtain ⟨s1, h1, htr, hm1, hc1, hmem1, hf1⟩ := read_cached_miss JBOD_NUM_DISKS s
        start_addr len rb1 tmp1 hnd hm hc hlen hblk hcap hfind
      have h2 := read_cached_hit JBOD_NUM_DISKS s1 start_addr len rb2 tmp2 _ hnd
        (by rw [hm1]; exact hm) (by rw [hc1]; exact hc) hlen hblk hcap hf1
      refine ⟨s1, _, _, _, _, h1, h2, Or.inr ⟨htr, ?_⟩, hf1, by simp, rfl, ?_, ?_⟩
      · intro i hi
        simp [hi]
      · simp [isJbod]
      · have hrd : isReadBlock (Event.jbod (op 0 0 JBOD_READ_BLOCK)) = true := by decide
        simp only [log_trace, htr, List.append_assoc, List.drop_left, List.cons_append,
          List.nil_append, List.filter_cons, hsd, hsb, hrd]
        simp [isReadBlock]

/-- Witness of C11: two reads of `(300, 10)` on 8 disks with an empty,
enabled cache. -/
theorem cache_hit_avoids_device_witness :
    ∃ s1 out1 s2 out2 blk,
      mdadm_read 8 (mkState true true rampJbod) 300 10 (some countBuf) (constBuf 0)
        = .ok (((10 : Nat) : Int), s1, some out1) ∧
      mdadm_read 8 s1 300 10 (some countBuf) (constBuf 0)
        = .ok (((10 : Nat) : Int), s2, some out2) ∧
      (s1.trace = (mkState true true rampJbod).trace ++
          [Event.lookup ((300 / 65536 : Nat) : Int) ((300 % 65536 / 256 : Nat) : Int) true,
            Event.memcpy 0 0 ((10 : Nat) : Int)] ∨
        (s1.trace = (mkState true true rampJbod).trace ++
          [Event.lookup ((300 / 65536 : Nat) : Int) ((300 % 65536 / 256 : Nat) : Int) false,
           Event.jbod (op (300 / 65536) 0 JBOD_SEEK_TO_DISK),
           Event.jbod (op 0 (300 % 65536 / 256) JBOD_SEEK_TO_BLOCK),
           Event.jbod (op 0 0 JBOD_READ_BLOCK),
           Event.insert ((300 / 65536 : Nat) : Int) ((300 % 65536 / 256 : Nat) : Int),
           Event.memcpy 0 0 ((10 : Nat) : Int)] ∧
          ∀ i, i < 256 →
            blk i = (mkState true true rampJbod).jbod.mem (300 / 65536) (300 % 65536 / 256) i)) ∧
      s1.cache.find ((300 / 65536 : Nat) : Int) ((300 % 65536 / 256 : Nat) : Int) = some blk ∧
      s2.trace = s1.trace ++
        [Event.lookup ((300 / 65536 : Nat) : Int) ((300 % 65536 / 256 : Nat) : Int) true,
          Event.memcpy 0 0 ((10 : Nat) : Int)] ∧
      s2.jbod = s1.jbod ∧
      ((s2.trace.drop s1.trace.length).filter isJbod = []) ∧
      ((s2.trace.drop (mkState true true rampJbod).trace.length).filter isReadBlock).length ≤ 1 :=
  cache_hit_avoids_device 8 (mkState true true rampJbod) 300 10 countBuf countBuf (constBuf 0)
    (constBuf 0) (by decide) rfl rfl (by decide) (by decide) (by decide)

/-- C16: with 8 disks and the cache enabled and empty, on a device whose
block `b` holds the byte `b`, the block-aligned `read(0, 512)` returns 512 but
both passes of its loop look up block 0 of disk 0 (`current_address` is never
advanced): the first misses, reads and inserts it, the second hits it, and
`read_buf[256]` is 0, the byte of block 0, while the device byte at linear
address 256 is 1. -/
theorem cache_read_repeats_first_block :
    readRet (mdadm_read 8 (mkState true true tagJbod) 0 512 (some (constBuf 9)) (constBuf 0))
        = some 512 ∧
      (readState (mdadm_read 8 (mkState true true tagJbod) 0 512 (some (constBuf 9))
          (constBuf 0))).map (fun s => s.trace)
        = some [Event.lookup 0 0 false, Event.jbod (op 0 0 JBOD_SEEK_TO_DISK),
                Event.jbod (op 0 0 JBOD_SEEK_TO_BLOCK), Event.jbod (op 0 0 JBOD_READ_BLOCK),
                Event.insert 0 0, Event.memcpy 0 0 256,
                Event.lookup 0 0 true, Event.memcpy 256 0 256] ∧
      readByte (mdadm_read 8 (mkState true true tagJbod) 0 512 (some (constBuf 9))
        (constBuf 0)) 255 = some 0 ∧
      readByte (mdadm_read 8 (mkState true true tagJbod) 0 512 (some (constBuf 9))
        (constBuf 0)) 256 = some 0 ∧
      tagJbod.mem (256 / 65536) (256 % 65536 / 256) (256 % 256) = 1 ∧
      readByte (mdadm_read 8 (mkState true false tagJbod) 0 512 (some (constBuf 9))
        (constBuf 0)) 256 = some 1 := by
  decide

/-! ## Address decomposition -/

/-- The first pass of the cache-disabled read loop works with the values of
`readAddr`: `mdadm_read` starts its loop from them. -/
theorem mdadm_read_uses_readAddr (JBOD_NUM_DISKS : Nat) (s : State) (start_addr read_len : Nat)
    (read_buf : Option Buf) (temp_buf : Buf)
    (hv : (!s.MOUNTED || (read_len != 0 && (decide (read_len > u32 1024) || read_buf.isNone))
      || decide ((start_addr + read_len) % 4294967296
          > u32 ((JBOD_NUM_DISKS : Int) * (JBOD_DISK_SIZE : Int)))) = false)
    (hc : cache_enabled s = false) :
    mdadm_read JBOD_NUM_DISKS s start_addr read_len read_buf temp_buf =
      match readLoop read_len read_len
          (ReadVars.mk s (i32 start_addr) (readAddr start_addr).1 (readAddr start_addr).2.1
            (readAddr start_addr).2.2 0 temp_buf read_buf) with
      | .error e => .error e
      | .ok v => .ok (v.read_bytes, v.s, v.read_buf) := by
  unfold mdadm_read
  simp only [hv, hc, Bool.false_eq_true, if_false]
  rfl

/-- Every pass of the write loop selects the disk and block of `writeAddr` and
copies to `temp_buf` at the offset of `writeAddr`. -/
theorem writeBody_uses_writeAddr (a L : Nat) (wb : Buf) (v v1 : WriteVars)
    (h : writeBody a L wb v = .ok v1) :
    ∃ n, v1.s.trace = v.s.trace ++
      [Event.jbod (op (u32 (writeAddr a v.written_bytes).1) 0 JBOD_SEEK_TO_DISK),
       Event.jbod (op 0 (u32 (writeAddr a v.written_bytes).2.1) JBOD_SEEK_TO_BLOCK),
       Event.memcpy v.written_bytes (writeAddr a v.written_bytes).2.2 n,
       Event.jbod (op 0 0 JBOD_WRITE_BLOCK)] := by
  unfold writeBody at h
  simp only [] at h
  split at h
  · exact absurd h (by simp)
  · rename_i s2 tb2 hco
    have hs2 := (copyIn_ok hco).2.2.2.2.1
    simp only [Except.ok.injEq] at h
    subst h
    refine ⟨(if (writeAddr a v.written_bytes).2.2 ≠ 0 then 256 - (writeAddr a v.written_bytes).2.2
      else if i32 (usub32 L (u32 v.written_bytes)) < 256 then i32 (usub32 L (u32 v.written_bytes))
      else 256), ?_⟩
    simp only [jbod_operation_trace, hs2, log_trace, List.append_assoc, List.cons_append,
      List.nil_append, writeAddr]

/-- C14: for every linear address `addr` below the capacity (which fits an
`int`), the `current_disk`, `current_block` and `offset` that `mdadm_read`
computes from `start_addr = addr` and that a pass of `mdadm_write` computes
at `start_addr + written_bytes = addr` are `addr / 65536`,
`(addr % 65536) / 256` and `addr % 256`; the disk is `< JBOD_NUM_DISKS`, the
block and the offset are `< 256`,
`disk * 65536 + block * 256 + offset = addr`, and no other address below the
capacity has the same three values. -/
theorem address_decomposition (JBOD_NUM_DISKS : Nat) (addr : Nat)
    (hnd : JBOD_NUM_DISKS * 65536 < 2147483648) (haddr : addr < JBOD_NUM_DISKS * 65536) :
    readAddr addr = (((addr / 65536 : Nat) : Int), ((addr % 65536 / 256 : Nat) : Int),
        ((addr % 256 : Nat) : Int)) ∧
      writeAddr addr 0 = readAddr addr ∧
      (∀ a w : Nat, a + w = addr → writeAddr a (w : Int) = readAddr addr) ∧
      addr / 65536 < JBOD_NUM_DISKS ∧ addr % 65536 / 256 < 256 ∧ addr % 256 < 256 ∧
      addr / 65536 * 65536 + addr % 65536 / 256 * 256 + addr % 256 = addr ∧
      ∀ addr', addr' < JBOD_NUM_DISKS * 65536 → readAddr addr' = readAddr addr →
        addr' = addr := by
  have hr : ∀ x, x < JBOD_NUM_DISKS * 65536 →
      readAddr x = (((x / 65536 : Nat) : Int), ((x % 65536 / 256 : Nat) : Int),
        ((x % 256 : Nat) : Int)) := by
    intro x hx
    unfold readAddr
    rw [i32_of_lt x (by omega), i32_of_lt (x / 65536) (by omega),
      i32_of_lt (x % 65536 / 256) (by omega)]
    rfl
  have hw : ∀ a w : Nat, a + w = addr → writeAddr a (w : Int) = readAddr addr := by
    intro a w haw
    rw [hr addr haddr]
    unfold writeAddr
    simp only []
    rw [u32_natCast w (by omega), haw, Nat.mod_eq_of_lt (by omega : addr < 4294967296),
      i32_of_lt addr (by omega)]
    rfl
  refine ⟨hr addr haddr, hw addr 0 rfl, hw, by omega, by omega, by omega, by omega, ?_⟩
  intro addr' h' heq
  rw [hr addr' h', hr addr haddr] at heq
  simp only [Prod.mk.injEq, Nat.cast_inj] at heq
  omega

/-- Witness of C14: address 300 on 8 disks is disk 0, block 1, offset 44. -/
theorem address_decomposition_witness :
    readAddr 300 = (((300 / 65536 : Nat) : Int), ((300 % 65536 / 256 : Nat) : Int),
        ((300 % 256 : Nat) : Int)) ∧
      writeAddr 300 0 = readAddr 300 ∧
      (∀ a w : Nat, a + w = 300 → writeAddr a (w : Int) = readAddr 300) ∧
      300 / 65536 < 8 ∧ 300 % 65536 / 256 < 256 ∧ 300 % 256 < 256 ∧
      300 / 65536 * 65536 + 300 % 65536 / 256 * 256 + 300 % 256 = 300 ∧
      ∀ addr', addr' < 8 * 65536 → readAddr addr' = readAddr 300 → addr' = 300 :=
  address_decomposition 8 300 (by decide) (by decide)

end Mdadm
